import Mathlib

/-!
# Population data chaincode

A shallow embedding of `population_data_contract/chaincode/smartcontract.go`:
the `PersonData` record, the six transaction functions of `SmartContract`, and
the parts of the chaincode stub and of the JSON codec they call.

Go strings and byte slices are modelled by their text (`String`); a byte slice
that may be `nil` is an `Option`.  A Go `error` is modelled by its message.
-/

namespace PopulationData

/-- Content of a Go byte slice `[]byte` (the stored payload text). -/
abbrev Bytes := String

/-- The struct `PersonData` of the chaincode. -/
structure PersonData where
  PassportNumber : String
  Name : String
  LastName : String
  City : String
  ResidentialAddress : String
  PhoneNumber : String
  FamilyStatus : String
deriving DecidableEq, Repr

/-- Result of running a transaction function: a normal return with a value, a
normal return with a non-nil `error` (its message), or a run-time crash of the
Go code (nil dereference). -/
inductive Outcome (α : Type) where
  | ok (value : α)
  | error (msg : String)
  | crash
deriving DecidableEq, Repr

/-- The calls `json.Marshal` and `json.Unmarshal` at type `PersonData`.  The
package `encoding/json` is a library outside the repository, so the codec is a
parameter of every transaction function. -/
structure Codec where
  marshal : PersonData → Except String Bytes
  unmarshal : Bytes → Except String PersonData

/-- Modelled from the spec: the versioned key-value backend behind
`ctx.GetStub()` (an external collaborator).  For each key it holds the current
value (`none` is the absent sentinel, `some ""` a present but empty value) and
the ordered, append-only sequence of every value written, oldest first.  The
four `...Err` fields say which backend calls fail, and with which message:
`GetState`, `PutState` and `GetHistoryForKey` per key, and the iterator call
`Next` per key and position. -/
structure Stub where
  world : String → Option Bytes
  history : String → List Bytes
  getStateErr : String → Option String
  putStateErr : String → Option String
  getHistoryErr : String → Option String
  nextErr : String → Nat → Option String

/-- One entry of a history iterator; only the field `Value` is read. -/
structure KeyModification where
  Value : Bytes
deriving DecidableEq, Repr

/-- The history iterator: the results the successive calls of `Next` will
give.  `HasNext` is true while the list is not empty. -/
structure HistoryQueryIterator where
  pending : List (Except String KeyModification)

/-- Modelled from the spec: point lookup of the current value. -/
def Stub.GetState (s : Stub) (key : String) : Except String (Option Bytes) × Stub :=
  match s.getStateErr key with
  | some err => (.error err, s)
  | none => (.ok (s.world key), s)

/-- Modelled from the spec: the backend after a write of `value` under `key`,
which sets the current value of `key` and appends a new version to its
history. -/
def Stub.written (s : Stub) (key : String) (value : Bytes) : Stub :=
  { s with
    world := fun k => if k = key then some value else s.world k
    history := fun k => if k = key then s.history k ++ [value] else s.history k }

/-- Modelled from the spec: a write under `key`; a failed write changes
nothing. -/
def Stub.PutState (s : Stub) (key : String) (value : Bytes) : Except String Unit × Stub :=
  match s.putStateErr key with
  | some err => (.error err, s)
  | none => (.ok (), s.written key value)

/-- The results of `Next` over the versions `vs`, the first of them at
position `i`. -/
def historyItems (nextErr : Nat → Option String) :
    Nat → List Bytes → List (Except String KeyModification)
  | _, [] => []
  | i, v :: vs =>
    (match nextErr i with
      | some err => Except.error err
      | none => Except.ok { Value := v }) :: historyItems nextErr (i + 1) vs

/-- Modelled from the spec: retrieval of the full version history of a key,
oldest first. -/
def Stub.GetHistoryForKey (s : Stub) (key : String) : Except String HistoryQueryIterator × Stub :=
  match s.getHistoryErr key with
  | some err => (.error err, s)
  | none => (.ok { pending := historyItems (s.nextErr key) 0 (s.history key) }, s)

/-- The two records `datas` that `InitLedger` writes. -/
def datas : List PersonData :=
  [ { PassportNumber := "1"
      Name := "Ildar"
      LastName := "Zinatulin"
      City := "Moscow"
      ResidentialAddress := "Some street, house 1, apartment 10"
      PhoneNumber := "+79999999999"
      FamilyStatus := "Not married" },
    { PassportNumber := "2"
      Name := "Artem"
      LastName := "Barger"
      City := "Moscow"
      ResidentialAddress := "Some street, house 1, apartment 11"
      PhoneNumber := "+79999999998"
      FamilyStatus := "No data" } ]

/-- The loop `for _, data := range datas` of `InitLedger`. -/
def initLoop (c : Codec) : List PersonData → Stub → Outcome Unit × Stub
  | [], s => (.ok (), s)
  | data :: rest, s =>
    match c.marshal data with
    | .error err => (.error ("failed to marshal. " ++ err), s)
    | .ok dataJSON =>
      match s.PutState data.PassportNumber dataJSON with
      | (.error err, s1) => (.error ("failed to put to world state. " ++ err), s1)
      | (.ok _, s1) => initLoop c rest s1

/-- `InitLedger`: adds a base set of data to the ledger. -/
def InitLedger (c : Codec) (s : Stub) : Outcome Unit × Stub :=
  initLoop c datas s

/-- `PersonDataExists`. -/
def PersonDataExists (passportNumber : String) (s : Stub) : Outcome Bool × Stub :=
  match s.GetState passportNumber with
  | (.error err, s1) => (.error ("failed to read from world state: " ++ err), s1)
  | (.ok dataJSON, s1) => (.ok (dataJSON != none), s1)

/-- The message of `CreatePersonData` for a key that exists. -/
def alreadyExistsMsg (passportNumber : String) : String :=
  "the person's data with passport number " ++ passportNumber ++ " already exists"

/-- The message of `ReadPersonData`, `UpdatePersonData` and
`PersonDataChanges` for a key that does not exist. -/
def doesNotExistMsg (passportNumber : String) : String :=
  "the person with passport number " ++ passportNumber ++ " does not exist"

/-- `CreatePersonData`. -/
def CreatePersonData (c : Codec) (passportNumber name lastName city residentialAddress
    phoneNumber familyStatus : String) (s : Stub) : Outcome Unit × Stub :=
  match PersonDataExists passportNumber s with
  | (.error err, s1) => (.error err, s1)
  | (.crash, s1) => (.crash, s1)
  | (.ok found, s1) =>
    if found then (.error (alreadyExistsMsg passportNumber), s1)
    else
      let data : PersonData :=
        { PassportNumber := passportNumber
          Name := name
          LastName := lastName
          City := city
          ResidentialAddress := residentialAddress
          PhoneNumber := phoneNumber
          FamilyStatus := familyStatus }
      match c.marshal data with
      | .error err => (.error err, s1)
      | .ok dataJSON =>
        match s1.PutState passportNumber dataJSON with
        | (.error err, s2) => (.error err, s2)
        | (.ok _, s2) => (.ok (), s2)

/-- `ReadPersonData`. -/
def ReadPersonData (c : Codec) (passportNumber : String) (s : Stub) :
    Outcome PersonData × Stub :=
  match s.GetState passportNumber with
  | (.error err, s1) => (.error ("failed to read from world state: " ++ err), s1)
  | (.ok none, s1) => (.error (doesNotExistMsg passportNumber), s1)
  | (.ok (some dataJSON), s1) =>
    match c.unmarshal dataJSON with
    | .error err => (.error err, s1)
    | .ok data => (.ok data, s1)

/-- `UpdatePersonData`. -/
def UpdatePersonData (c : Codec) (passportNumber name lastName city residentialAddress
    phoneNumber familyStatus : String) (s : Stub) : Outcome Unit × Stub :=
  match PersonDataExists passportNumber s with
  | (.error err, s1) => (.error err, s1)
  | (.crash, s1) => (.crash, s1)
  | (.ok found, s1) =>
    if !found then (.error (doesNotExistMsg passportNumber), s1)
    else
      let data : PersonData :=
        { PassportNumber := passportNumber
          Name := name
          LastName := lastName
          City := city
          ResidentialAddress := residentialAddress
          PhoneNumber := phoneNumber
          FamilyStatus := familyStatus }
      match c.marshal data with
      | .error err => (.error err, s1)
      | .ok dataJSON =>
        match s1.PutState passportNumber dataJSON with
        | (.error err, s2) => (.error err, s2)
        | (.ok _, s2) => (.ok (), s2)

/-- The loop `for iterator.HasNext()` of `PersonDataChanges`, `data` being the
slice built so far. -/
def changesLoop (c : Codec) :
    List (Except String KeyModification) → List PersonData → Outcome (List PersonData)
  | [], data => .ok data
  | .error err :: _, _ => .error err
  | .ok historyValue :: rest, data =>
    match c.unmarshal historyValue.Value with
    | .error err => .error err
    | .ok value => changesLoop c rest (data ++ [value])

/-- `PersonDataChanges`.  The `err` of `GetHistoryForKey` is assigned and never
read: when that call fails the iterator is nil and `iterator.HasNext()`
dereferences it. -/
def PersonDataChanges (c : Codec) (passportNumber : String) (s : Stub) :
    Outcome (List PersonData) × Stub :=
  match PersonDataExists passportNumber s with
  | (.error err, s1) => (.error err, s1)
  | (.crash, s1) => (.crash, s1)
  | (.ok found, s1) =>
    if !found then (.error (doesNotExistMsg passportNumber), s1)
    else
      match s1.GetHistoryForKey passportNumber with
      | (.error _, s2) => (.crash, s2)
      | (.ok iterator, s2) => (changesLoop c iterator.pending [], s2)

/-! ## A JSON codec and the scenarios of the specification -/

/-- The double quote. -/
def quoteChar : Char := Char.ofNat 34

/-- The backslash. -/
def backslashChar : Char := Char.ofNat 92

/-- Text of a JSON string literal without its quotes: the double quote and the
backslash are escaped by a backslash. -/
def escapeChars : List Char → List Char
  | [] => []
  | ch :: rest =>
    if ch = quoteChar ∨ ch = backslashChar then backslashChar :: ch :: escapeChars rest
    else ch :: escapeChars rest

/-- Reads a JSON string literal after its opening quote: the text read (in
reverse in `acc`) and the input left after the closing quote. -/
def readChars : List Char → List Char → Option (List Char × List Char)
  | [], _ => none
  | [ch], acc => if ch = quoteChar then some (acc.reverse, []) else none
  | ch :: next :: rest, acc =>
    if ch = quoteChar then some (acc.reverse, next :: rest)
    else if ch = backslashChar then
      if next = quoteChar ∨ next = backslashChar then readChars rest (next :: acc) else none
    else readChars (next :: rest) (ch :: acc)

/-- Drops the text `lit` from the front of the input, if it is there. -/
def expectChars : List Char → List Char → Option (List Char)
  | [], input => some input
  | _ :: _, [] => none
  | l :: lit, ch :: input => if l = ch then expectChars lit input else none

/-- Reads one member of the object: the text `lead`, then a string literal. -/
def readField (lead : String) (input : List Char) : Option (String × List Char) :=
  match expectChars lead.toList input with
  | none => none
  | some rest =>
    match readChars rest [] with
    | none => none
    | some (text, rest1) => some (String.mk text, rest1)

/-- Writes one member of the object. -/
def writeField (lead : String) (value : String) : String :=
  lead ++ String.mk (escapeChars value.toList) ++ "\""

/-- Modelled from the spec: the payload format, a JSON object with the keys
`PassportNumber`, `Name`, `LastName`, `City`, `ResidentialAddress`,
`PhoneNumber`, `FamilyStatus` in this order. -/
def jsonMarshal (r : PersonData) : Except String Bytes :=
  .ok (writeField "\x7b\"PassportNumber\":\"" r.PassportNumber
    ++ writeField ",\"Name\":\"" r.Name
    ++ writeField ",\"LastName\":\"" r.LastName
    ++ writeField ",\"City\":\"" r.City
    ++ writeField ",\"ResidentialAddress\":\"" r.ResidentialAddress
    ++ writeField ",\"PhoneNumber\":\"" r.PhoneNumber
    ++ writeField ",\"FamilyStatus\":\"" r.FamilyStatus
    ++ "\x7d")

/-- The seven members of the object, then the closing brace and the end of the
input. -/
def jsonFields (input : List Char) : Option PersonData :=
  match readField "\x7b\"PassportNumber\":\"" input with
  | none => none
  | some (passportNumber, r1) =>
  match readField ",\"Name\":\"" r1 with
  | none => none
  | some (name, r2) =>
  match readField ",\"LastName\":\"" r2 with
  | none => none
  | some (lastName, r3) =>
  match readField ",\"City\":\"" r3 with
  | none => none
  | some (city, r4) =>
  match readField ",\"ResidentialAddress\":\"" r4 with
  | none => none
  | some (residentialAddress, r5) =>
  match readField ",\"PhoneNumber\":\"" r5 with
  | none => none
  | some (phoneNumber, r6) =>
  match readField ",\"FamilyStatus\":\"" r6 with
  | none => none
  | some (familyStatus, r7) =>
    if r7 = "\x7d".toList then
      some
        { PassportNumber := passportNumber
          Name := name
          LastName := lastName
          City := city
          ResidentialAddress := residentialAddress
          PhoneNumber := phoneNumber
          FamilyStatus := familyStatus }
    else none

/-- Modelled from the spec: reading the payload format back.  Only the text
written by `jsonMarshal` is accepted; any other input is an error. -/
def jsonUnmarshal (b : Bytes) : Except String PersonData :=
  match jsonFields b.toList with
  | some r => .ok r
  | none => if b = "" then .error "unexpected end of JSON input" else .error "invalid JSON input"

/-- Modelled from the spec: the JSON codec of the payload format. -/
def jsonCodec : Codec :=
  { marshal := jsonMarshal, unmarshal := jsonUnmarshal }

/-- The six attributes a caller passes to `CreatePersonData` and
`UpdatePersonData` besides the passport number. -/
structure Payload where
  name : String
  lastName : String
  city : String
  residentialAddress : String
  phoneNumber : String
  familyStatus : String
deriving DecidableEq, Repr

/-- The record `data` that `CreatePersonData` and `UpdatePersonData` build from
their arguments. -/
def Payload.record (passportNumber : String) (p : Payload) : PersonData :=
  { PassportNumber := passportNumber
    Name := p.name
    LastName := p.lastName
    City := p.city
    ResidentialAddress := p.residentialAddress
    PhoneNumber := p.phoneNumber
    FamilyStatus := p.familyStatus }

/-- The call `CreatePersonData(k, p)`. -/
def create (c : Codec) (k : String) (p : Payload) (s : Stub) : Outcome Unit × Stub :=
  CreatePersonData c k p.name p.lastName p.city p.residentialAddress p.phoneNumber
    p.familyStatus s

/-- The call `UpdatePersonData(k, p)`. -/
def update (c : Codec) (k : String) (p : Payload) (s : Stub) : Outcome Unit × Stub :=
  UpdatePersonData c k p.name p.lastName p.city p.residentialAddress p.phoneNumber
    p.familyStatus s

/-- The calls `UpdatePersonData(k, p)` for the payloads of `ps`, one after the
other, up to the first that does not succeed. -/
def updates (c : Codec) (k : String) : List Payload → Stub → Outcome Unit × Stub
  | [], s => (.ok (), s)
  | p :: ps, s =>
    match update c k p s with
    | (.ok _, s1) => updates c k ps s1
    | (.error err, s1) => (.error err, s1)
    | (.crash, s1) => (.crash, s1)

/-- The codec writes the record `r` and reads it back unchanged. -/
def Codec.RoundTrips (c : Codec) (r : PersonData) : Prop :=
  ∃ b, c.marshal r = .ok b ∧ c.unmarshal b = .ok r

/-- The version `v` deserializes to the record `r`. -/
def Codec.Reads (c : Codec) (v : Bytes) (r : PersonData) : Prop :=
  c.unmarshal v = .ok r

/-- All calls of the backend succeed. -/
def Stub.Responsive (s : Stub) : Prop :=
  (∀ k, s.getStateErr k = none) ∧ (∀ k, s.putStateErr k = none) ∧
    (∀ k, s.getHistoryErr k = none) ∧ ∀ k i, s.nextErr k i = none

/-- The backend that holds nothing and whose calls succeed. -/
def emptyStub : Stub :=
  { world := fun _ => none
    history := fun _ => []
    getStateErr := fun _ => none
    putStateErr := fun _ => none
    getHistoryErr := fun _ => none
    nextErr := fun _ _ => none }

/-- The outcome without its value. -/
def Outcome.void {α : Type} : Outcome α → Outcome Unit
  | .ok _ => .ok ()
  | .error msg => .error msg
  | .crash => .crash

/-- The outcome is a returned error. -/
def Outcome.isError {α : Type} : Outcome α → Bool
  | .error _ => true
  | _ => false

/-- A call of one of the six transaction functions, with its arguments. -/
inductive Call where
  | initLedger
  | personDataExists (k : String)
  | createPersonData (k : String) (p : Payload)
  | readPersonData (k : String)
  | updatePersonData (k : String) (p : Payload)
  | personDataChanges (k : String)
deriving DecidableEq, Repr

/-- Runs a call: its outcome (without the value) and the backend after it. -/
def Call.run (c : Codec) : Call → Stub → Outcome Unit × Stub
  | .initLedger, s => InitLedger c s
  | .personDataExists k, s => ((PersonDataExists k s).1.void, (PersonDataExists k s).2)
  | .createPersonData k p, s => create c k p s
  | .readPersonData k, s => ((ReadPersonData c k s).1.void, (ReadPersonData c k s).2)
  | .updatePersonData k p, s => update c k p s
  | .personDataChanges k, s => ((PersonDataChanges c k s).1.void, (PersonDataChanges c k s).2)

/-- A payload for the examples. -/
def payloadA : Payload :=
  { name := "Ildar", lastName := "Zinatulin", city := "Moscow",
    residentialAddress := "Some street", phoneNumber := "+7999", familyStatus := "Not married" }

/-- A second payload for the examples. -/
def payloadB : Payload :=
  { name := "Artem", lastName := "Barger", city := "Kazan",
    residentialAddress := "Other street", phoneNumber := "+7998", familyStatus := "No data" }

/-- The backend after `InitLedger` on the empty backend, with the call
`GetHistoryForKey` failing from then on. -/
def historyDownStub : Stub :=
  { (InitLedger jsonCodec emptyStub).2 with
    getHistoryErr := fun _ => some "history unavailable" }

/-- The empty backend with the writes under key "2" failing. -/
def putFailsStub : Stub :=
  { emptyStub with putStateErr := fun k => if k = "2" then some "unavailable" else none }

/-- A backend whose history of "1" is one version that is not a record. -/
def corruptAt0 : Stub :=
  emptyStub.written "1" "x"

/-- A backend whose history of "1" is a record written by
`CreatePersonData`, then a version that is not a record. -/
def corruptAt1 : Stub :=
  (create jsonCodec "1" payloadA emptyStub).2.written "1" "x"

/-- The codec reads back every record it writes. -/
def Codec.Faithful (c : Codec) : Prop :=
  ∀ r b, c.marshal r = .ok b → c.unmarshal b = .ok r

/-- The key invariant: every value stored under a key, the current one and
every version of the history, deserializes to a record whose `PassportNumber`
is that key. -/
def Stub.KeyInvariant (c : Codec) (s : Stub) : Prop :=
  ∀ k v, (s.world k = some v ∨ v ∈ s.history k) →
    ∃ r, c.unmarshal v = .ok r ∧ r.PassportNumber = k

/-- The backend states reached from the empty backend by successful calls of
`InitLedger`, `CreatePersonData` and `UpdatePersonData`. -/
inductive Reachable (c : Codec) : Stub → Prop
  | empty : Reachable c emptyStub
  | initLedger {s : Stub} : Reachable c s → (InitLedger c s).1 = .ok () →
      Reachable c (InitLedger c s).2
  | create {s : Stub} (k : String) (p : Payload) : Reachable c s →
      (create c k p s).1 = .ok () → Reachable c (create c k p s).2
  | update {s : Stub} (k : String) (p : Payload) : Reachable c s →
      (update c k p s).1 = .ok () → Reachable c (update c k p s).2

/-- The first record of `datas`. -/
def firstData : PersonData :=
  { PassportNumber := "1"
    Name := "Ildar"
    LastName := "Zinatulin"
    City := "Moscow"
    ResidentialAddress := "Some street, house 1, apartment 10"
    PhoneNumber := "+79999999999"
    FamilyStatus := "Not married" }

/-- The second record of `datas`. -/
def secondData : PersonData :=
  { PassportNumber := "2"
    Name := "Artem"
    LastName := "Barger"
    City := "Moscow"
    ResidentialAddress := "Some street, house 1, apartment 11"
    PhoneNumber := "+79999999998"
    FamilyStatus := "No data" }

/-- The backend `s'` has the failures of `s`, a current value wherever `s` has
one, and histories that start with those of `s`. -/
def Stub.Extends (s s' : Stub) : Prop :=
  s'.getStateErr = s.getStateErr ∧ s'.putStateErr = s.putStateErr ∧
    s'.getHistoryErr = s.getHistoryErr ∧ s'.nextErr = s.nextErr ∧
    ∀ k, (s.world k ≠ none → s'.world k ≠ none) ∧ s.history k <+: s'.history k

/-- The calls of the backend succeed, every version of every history
deserializes, and the current value of a key that has one is the last version
of its history. -/
def Stub.Coherent (c : Codec) (s : Stub) : Prop :=
  s.Responsive ∧ (∀ k, ∀ v ∈ s.history k, ∃ r, c.unmarshal v = .ok r) ∧
    ∀ k b, s.world k = some b → ∃ hs, s.history k = hs ++ [b]

/-- The backend after `InitLedger` on the empty backend. -/
def seededStub : Stub :=
  (InitLedger jsonCodec emptyStub).2

/-- The empty backend after `CreatePersonData` has stored a record of its own
under the key "1". -/
def occupiedStub : Stub :=
  (create jsonCodec "1" payloadA emptyStub).2

/-- The texts of the errors of `json.Unmarshal` (package `encoding/json`): the
syntax error of an input that ends too early, a syntax error at a character,
and the errors of the decoder, which all start with the name of the package. -/
def IsJsonErrorText (e : String) : Prop :=
  e = "unexpected end of JSON input" ∨ (∃ t, e = "invalid character " ++ t) ∨
    ∃ t, e = "json: " ++ t

/-! ## The JSON text of a record, byte by byte -/

/-- Content of a Go `string`: its bytes, each below 256, valid UTF-8 or not. -/
abbrev GoString := List Nat

/-- The rune `utf8.RuneError`, U+FFFD. -/
def runeError : Nat := 0xFFFD

/-- The UTF-8 bytes of a rune, as `utf8.EncodeRune` writes them; a surrogate
or a value above U+10FFFF is written as U+FFFD. -/
def encodeRune (r : Nat) : GoString :=
  if r < 0x80 then [r]
  else if r < 0x800 then [0xC0 + r / 64, 0x80 + r % 64]
  else if (0xD800 ≤ r ∧ r ≤ 0xDFFF) ∨ 0x10FFFF < r then [0xEF, 0xBF, 0xBD]
  else if r < 0x10000 then [0xE0 + r / 4096, 0x80 + r / 64 % 64, 0x80 + r % 64]
  else [0xF0 + r / 262144, 0x80 + r / 4096 % 64, 0x80 + r / 64 % 64, 0x80 + r % 64]

/-- The first rune of a byte sequence and its width, as `utf8.DecodeRune` gives
them: `(runeError, 1)` when the sequence does not start with a valid
encoding, `(runeError, 0)` when it is empty. -/
def decodeRune : GoString → Nat × Nat
  | [] => (runeError, 0)
  | s0 :: rest =>
    if s0 < 0x80 then (s0, 1)
    else if s0 < 0xC2 ∨ 0xF4 < s0 then (runeError, 1)
    else
      match rest with
      | [] => (runeError, 1)
      | s1 :: rest1 =>
        if s1 < (if s0 = 0xE0 then 0xA0 else if s0 = 0xF0 then 0x90 else 0x80) ∨
            (if s0 = 0xED then 0x9F else if s0 = 0xF4 then 0x8F else 0xBF) < s1 then
          (runeError, 1)
        else if s0 < 0xE0 then ((s0 % 32) * 64 + s1 % 64, 2)
        else
          match rest1 with
          | [] => (runeError, 1)
          | s2 :: rest2 =>
            if s2 < 0x80 ∨ 0xBF < s2 then (runeError, 1)
            else if s0 < 0xF0 then ((s0 % 16) * 4096 + (s1 % 64) * 64 + s2 % 64, 3)
            else
              match rest2 with
              | [] => (runeError, 1)
              | s3 :: _ =>
                if s3 < 0x80 ∨ 0xBF < s3 then (runeError, 1)
                else ((s0 % 8) * 262144 + (s1 % 64) * 4096 + (s2 % 64) * 64 + s3 % 64, 4)

/-- The UTF-8 bytes of a sequence of characters. -/
def utf8Chars : List Char → GoString
  | [] => []
  | ch :: rest => encodeRune ch.toNat ++ utf8Chars rest

/-- The UTF-8 bytes of a text: the Go strings that are valid UTF-8. -/
def utf8 (s : String) : GoString :=
  utf8Chars s.data

/-- The digit `hex[n]` of `encoding/json`, for `n` below 16. -/
def hexDigit (n : Nat) : Nat :=
  if n < 10 then 48 + n else 87 + n

/-- The table `htmlSafeSet` of `encoding/json`: the ASCII bytes written as they
are, all from the space on but the double quote, `&`, `<`, `>` and the
backslash. -/
def htmlSafe (b : Nat) : Bool :=
  decide (0x20 ≤ b ∧ b < 0x80 ∧ b ≠ 34 ∧ b ≠ 38 ∧ b ≠ 60 ∧ b ≠ 62 ∧ b ≠ 92)

/-- The escape that the string encoder of `encoding/json` writes for an ASCII
byte outside `htmlSafeSet` (releases of Go before 1.22 write the backspace and
the form feed as `\u0008` and `\u000c`, which read back the same). -/
def escapeByte (b : Nat) : List Nat :=
  if b = 92 ∨ b = 34 then [92, b]
  else if b = 8 then [92, 98]
  else if b = 12 then [92, 102]
  else if b = 10 then [92, 110]
  else if b = 13 then [92, 114]
  else if b = 9 then [92, 116]
  else [92, 117, 48, 48, hexDigit (b / 16), hexDigit (b % 16)]

/-- The loop of the string encoder of `encoding/json` (with HTML escaping, as
`json.Marshal` runs it) over the bytes left of the source: ASCII bytes are
copied or escaped, a byte that starts no valid UTF-8 encoding is written as
the escape of U+FFFD, U+2028 and U+2029 are escaped, any other rune is
copied.  Every round takes at least one byte, so `fuel` rounds are enough for a
source of `fuel` bytes. -/
def appendStringLoop : Nat → GoString → List Nat
  | 0, _ => []
  | _ + 1, [] => []
  | fuel + 1, b :: rest =>
    if b < 0x80 then
      (if htmlSafe b then [b] else escapeByte b) ++ appendStringLoop fuel rest
    else if (decodeRune ((b :: rest).take 4)).1 = runeError ∧
        (decodeRune ((b :: rest).take 4)).2 = 1 then
      [92, 117, 102, 102, 102, 100] ++ appendStringLoop fuel rest
    else if (decodeRune ((b :: rest).take 4)).1 = 0x2028 ∨
        (decodeRune ((b :: rest).take 4)).1 = 0x2029 then
      [92, 117, 50, 48, 50, hexDigit ((decodeRune ((b :: rest).take 4)).1 % 16)] ++
        appendStringLoop fuel ((b :: rest).drop (decodeRune ((b :: rest).take 4)).2)
    else
      (b :: rest).take (decodeRune ((b :: rest).take 4)).2 ++
        appendStringLoop fuel ((b :: rest).drop (decodeRune ((b :: rest).take 4)).2)

/-- The JSON string literal that `json.Marshal` writes for a Go string. -/
def appendString (src : GoString) : List Nat :=
  34 :: appendStringLoop src.length src ++ [34]

/-- The struct `PersonData` with its strings as byte sequences. -/
structure PersonDataRaw where
  PassportNumber : GoString
  Name : GoString
  LastName : GoString
  City : GoString
  ResidentialAddress : GoString
  PhoneNumber : GoString
  FamilyStatus : GoString
deriving DecidableEq, Repr

/-- The `json` tags of the fields of `PersonData`, in the order of the
struct. -/
def tags : List GoString :=
  [utf8 "PassportNumber", utf8 "Name", utf8 "LastName", utf8 "City",
    utf8 "ResidentialAddress", utf8 "PhoneNumber", utf8 "FamilyStatus"]

/-- The values of the fields, in the order of the struct. -/
def PersonDataRaw.values (r : PersonDataRaw) : List GoString :=
  [r.PassportNumber, r.Name, r.LastName, r.City, r.ResidentialAddress, r.PhoneNumber,
    r.FamilyStatus]

/-- The record of a text record. -/
def PersonData.toRaw (r : PersonData) : PersonDataRaw :=
  { PassportNumber := utf8 r.PassportNumber
    Name := utf8 r.Name
    LastName := utf8 r.LastName
    City := utf8 r.City
    ResidentialAddress := utf8 r.ResidentialAddress
    PhoneNumber := utf8 r.PhoneNumber
    FamilyStatus := utf8 r.FamilyStatus }

/-- The members `"key":"value"` of an object, the first after the byte `lead`
and the others after a comma, then the closing brace. -/
def writeMembers : Nat → List (GoString × GoString) → List Nat
  | _, [] => [125]
  | lead, (key, value) :: rest =>
    lead :: 34 :: key ++ [34, 58] ++ appendString value ++ writeMembers 44 rest

/-- Modelled from the spec: the bytes that `json.Marshal` of `encoding/json`
writes for a `PersonData`, an object with one member for each field, under the
key of its tag, in the order of the struct. -/
def goMarshal (r : PersonDataRaw) : List Nat :=
  writeMembers 123 (tags.zip r.values)

/-- The value of a hexadecimal digit. -/
def unhex (b : Nat) : Option Nat :=
  if 48 ≤ b ∧ b ≤ 57 then some (b - 48)
  else if 97 ≤ b ∧ b ≤ 102 then some (b - 87)
  else if 65 ≤ b ∧ b ≤ 70 then some (b - 55)
  else none

/-- The function `getu4` of `encoding/json`: the value of the escape
`\uXXXX` at the front of the input. -/
def getu4 : List Nat → Option Nat
  | 92 :: 117 :: a :: b :: c :: d :: _ =>
    match unhex a, unhex b, unhex c, unhex d with
    | some x, some y, some z, some w => some (x * 4096 + y * 256 + z * 16 + w)
    | _, _, _, _ => none
  | _ => none

/-- The byte of a one-letter escape. -/
def unescapeByte (b : Nat) : Option Nat :=
  if b = 34 ∨ b = 92 ∨ b = 47 then some b
  else if b = 98 then some 8
  else if b = 102 then some 12
  else if b = 110 then some 10
  else if b = 114 then some 13
  else if b = 116 then some 9
  else none

/-- Reads a JSON string literal after its opening quote, as the scanner and
`unquote` of `encoding/json` do: the string it denotes (after `acc`) and the
input left after the closing quote.  Escapes are decoded, a pair of surrogate
escapes gives one rune, a lone surrogate and a byte that starts no valid UTF-8
encoding give U+FFFD; a control byte or a wrong escape is refused. -/
def unquoteLoop : Nat → List Nat → GoString → Option (GoString × List Nat)
  | 0, _, _ => none
  | _ + 1, [], _ => none
  | fuel + 1, c :: rest, acc =>
    if c = 34 then some (acc, rest)
    else if c = 92 then
      match rest with
      | [] => none
      | x :: rest1 =>
        if x = 117 then
          match getu4 (c :: rest) with
          | none => none
          | some rr =>
            if 0xD800 ≤ rr ∧ rr < 0xE000 then
              match getu4 (rest1.drop 4) with
              | none => unquoteLoop fuel (rest1.drop 4) (acc ++ encodeRune runeError)
              | some rr1 =>
                if rr < 0xDC00 ∧ 0xDC00 ≤ rr1 ∧ rr1 < 0xE000 then
                  unquoteLoop fuel (rest1.drop 10)
                    (acc ++ encodeRune ((rr - 0xD800) * 1024 + (rr1 - 0xDC00) + 0x10000))
                else unquoteLoop fuel (rest1.drop 4) (acc ++ encodeRune runeError)
            else unquoteLoop fuel (rest1.drop 4) (acc ++ encodeRune rr)
        else
          match unescapeByte x with
          | none => none
          | some b => unquoteLoop fuel rest1 (acc ++ [b])
    else if c < 0x20 then none
    else if c < 0x80 then unquoteLoop fuel rest (acc ++ [c])
    else
      unquoteLoop fuel ((c :: rest).drop (decodeRune (c :: rest)).2)
        (acc ++ encodeRune (decodeRune (c :: rest)).1)

/-! ## The scanner and the decoder of `encoding/json` -/

/-- An error of `json.Unmarshal`: a `SyntaxError` at a byte, the `SyntaxError`
of an input that ends too early, or an `UnmarshalTypeError` for a JSON value
of the kind `value`, at the field `field` or at the top level. -/
inductive JsonError where
  | atChar (c : Nat) (context : String)
  | endOfInput
  | mismatch (value : String) (field : Option String)
deriving DecidableEq, Repr

/-- The two hexadecimal digits of a byte, as text. -/
def hexPair (c : Nat) : String :=
  String.mk [Char.ofNat (hexDigit (c / 16 % 16)), Char.ofNat (hexDigit (c % 16))]

/-- The function `quoteChar` of `encoding/json`: the byte `c` as a quoted
character, for the text of a `SyntaxError`. -/
def quoteByte (c : Nat) : String :=
  if c = 39 then "'\\''"
  else if c = 34 then "'\"'"
  else if c = 92 then "'\\\\'"
  else if (0x20 ≤ c ∧ c ≤ 0x7E) ∨ (0xA1 ≤ c ∧ c ≤ 0xFF ∧ c ≠ 0xAD) then
    "'" ++ String.singleton (Char.ofNat c) ++ "'"
  else if c = 7 then "'\\a'"
  else if c = 8 then "'\\b'"
  else if c = 12 then "'\\f'"
  else if c = 10 then "'\\n'"
  else if c = 13 then "'\\r'"
  else if c = 9 then "'\\t'"
  else if c = 11 then "'\\v'"
  else if c < 0x20 ∨ c = 0x7F then "'\\x" ++ hexPair c ++ "'"
  else "'\\u00" ++ hexPair c ++ "'"

/-- The text of the error, `Error()`. -/
def JsonError.text : JsonError → String
  | .atChar c context => "invalid character " ++ quoteByte c ++ " " ++ context
  | .endOfInput => "unexpected end of JSON input"
  | .mismatch value (some field) =>
    "json: cannot unmarshal " ++ value ++ " into Go struct field PersonData." ++ field
      ++ " of type string"
  | .mismatch value none =>
    "json: cannot unmarshal " ++ value ++ " into Go value of type chaincode.PersonData"

/-- The entries of the parse stack of the scanner. -/
inductive ParseState where
  | parseObjectKey
  | parseObjectValue
  | parseArrayValue
deriving DecidableEq, Repr

/-- The step functions of the scanner. -/
inductive ScanStep where
  | beginValueOrEmpty | beginValue | beginStringOrEmpty | beginString | endValue | endTop
  | inString | inStringEsc | inStringEscU | inStringEscU1 | inStringEscU12 | inStringEscU123
  | neg | one | zero | dot | dot0 | exp | expSign | exp0
  | litT | litTr | litTru | litF | litFa | litFal | litFals | litN | litNu | litNul
deriving DecidableEq, Repr

/-- The scanner of `encoding/json`: the step function to run on the next byte,
the parse stack (innermost first) and whether the top-level value is
complete. -/
structure Scanner where
  step : ScanStep
  parseState : List ParseState
  endTop : Bool
deriving DecidableEq, Repr

/-- The function `isSpace` of the scanner. -/
def isSpace (c : Nat) : Bool :=
  decide (c = 32 ∨ c = 9 ∨ c = 13 ∨ c = 10)

/-- The constant `maxNestingDepth`. -/
def maxNestingDepth : Nat := 10000

/-- The method `pushParseState`. -/
def pushParseState (s : Scanner) (c : Nat) (newParseState : ParseState) (next : ScanStep) :
    Except JsonError Scanner :=
  if s.parseState.length + 1 ≤ maxNestingDepth then
    .ok { s with step := next, parseState := newParseState :: s.parseState }
  else .error (.atChar c "exceeded max depth")

/-- The method `popParseState`. -/
def popParseState (s : Scanner) : Scanner :=
  match s.parseState.tail with
  | [] => { step := .endTop, parseState := [], endTop := true }
  | rest => { s with step := .endValue, parseState := rest }

/-- The step function `stateEndTop`. -/
def stateEndTop (s : Scanner) (c : Nat) : Except JsonError Scanner :=
  if isSpace c then .ok s else .error (.atChar c "after top-level value")

/-- The step function `stateEndValue`. -/
def stateEndValue (s : Scanner) (c : Nat) : Except JsonError Scanner :=
  match s.parseState with
  | [] => stateEndTop { s with step := .endTop, endTop := true } c
  | ps :: rest =>
    if isSpace c then .ok { s with step := .endValue }
    else
      match ps with
      | .parseObjectKey =>
        if c = 58 then .ok { s with step := .beginValue, parseState := .parseObjectValue :: rest }
        else .error (.atChar c "after object key")
      | .parseObjectValue =>
        if c = 44 then .ok { s with step := .beginString, parseState := .parseObjectKey :: rest }
        else if c = 125 then .ok (popParseState s)
        else .error (.atChar c "after object key:value pair")
      | .parseArrayValue =>
        if c = 44 then .ok { s with step := .beginValue }
        else if c = 93 then .ok (popParseState s)
        else .error (.atChar c "after array element")

/-- The step function `stateBeginValue`. -/
def stateBeginValue (s : Scanner) (c : Nat) : Except JsonError Scanner :=
  if isSpace c then .ok s
  else if c = 123 then pushParseState s c .parseObjectKey .beginStringOrEmpty
  else if c = 91 then pushParseState s c .parseArrayValue .beginValueOrEmpty
  else if c = 34 then .ok { s with step := .inString }
  else if c = 45 then .ok { s with step := .neg }
  else if c = 48 then .ok { s with step := .zero }
  else if c = 116 then .ok { s with step := .litT }
  else if c = 102 then .ok { s with step := .litF }
  else if c = 110 then .ok { s with step := .litN }
  else if 49 ≤ c ∧ c ≤ 57 then .ok { s with step := .one }
  else .error (.atChar c "looking for beginning of value")

/-- The step function `stateBeginValueOrEmpty`. -/
def stateBeginValueOrEmpty (s : Scanner) (c : Nat) : Except JsonError Scanner :=
  if isSpace c then .ok s
  else if c = 93 then stateEndValue s c
  else stateBeginValue s c

/-- The step function `stateBeginString`. -/
def stateBeginString (s : Scanner) (c : Nat) : Except JsonError Scanner :=
  if isSpace c then .ok s
  else if c = 34 then .ok { s with step := .inString }
  else .error (.atChar c "looking for beginning of object key string")

/-- The step function `stateBeginStringOrEmpty`. -/
def stateBeginStringOrEmpty (s : Scanner) (c : Nat) : Except JsonError Scanner :=
  if isSpace c then .ok s
  else if c = 125 then
    stateEndValue { s with parseState := .parseObjectValue :: s.parseState.tail } c
  else stateBeginString s c

/-- The step function `stateInString`. -/
def stateInString (s : Scanner) (c : Nat) : Except JsonError Scanner :=
  if c = 34 then .ok { s with step := .endValue }
  else if c = 92 then .ok { s with step := .inStringEsc }
  else if c < 0x20 then .error (.atChar c "in string literal")
  else .ok s

/-- The step function `stateInStringEsc`. -/
def stateInStringEsc (s : Scanner) (c : Nat) : Except JsonError Scanner :=
  if c = 98 ∨ c = 102 ∨ c = 110 ∨ c = 114 ∨ c = 116 ∨ c = 92 ∨ c = 47 ∨ c = 34 then
    .ok { s with step := .inString }
  else if c = 117 then .ok { s with step := .inStringEscU }
  else .error (.atChar c "in string escape code")

/-- A hexadecimal digit, in either case. -/
def isHex (c : Nat) : Bool :=
  decide ((48 ≤ c ∧ c ≤ 57) ∨ (97 ≤ c ∧ c ≤ 102) ∨ (65 ≤ c ∧ c ≤ 70))

/-- The step functions `stateInStringEscU` to `stateInStringEscU123`, which go
on to `next`. -/
def stateInStringEscU (next : ScanStep) (s : Scanner) (c : Nat) : Except JsonError Scanner :=
  if isHex c then .ok { s with step := next }
  else .error (.atChar c "in \\u hexadecimal character escape")

/-- A decimal digit. -/
def isDigit (c : Nat) : Bool :=
  decide (48 ≤ c ∧ c ≤ 57)

/-- The step function `state0`. -/
def state0 (s : Scanner) (c : Nat) : Except JsonError Scanner :=
  if c = 46 then .ok { s with step := .dot }
  else if c = 101 ∨ c = 69 then .ok { s with step := .exp }
  else stateEndValue s c

/-- The step function `state1`. -/
def state1 (s : Scanner) (c : Nat) : Except JsonError Scanner :=
  if isDigit c then .ok { s with step := .one } else state0 s c

/-- The step function `stateNeg`. -/
def stateNeg (s : Scanner) (c : Nat) : Except JsonError Scanner :=
  if c = 48 then .ok { s with step := .zero }
  else if 49 ≤ c ∧ c ≤ 57 then .ok { s with step := .one }
  else .error (.atChar c "in numeric literal")

/-- The step function `stateDot`. -/
def stateDot (s : Scanner) (c : Nat) : Except JsonError Scanner :=
  if isDigit c then .ok { s with step := .dot0 }
  else .error (.atChar c "after decimal point in numeric literal")

/-- The step function `stateDot0`. -/
def stateDot0 (s : Scanner) (c : Nat) : Except JsonError Scanner :=
  if isDigit c then .ok s
  else if c = 101 ∨ c = 69 then .ok { s with step := .exp }
  else stateEndValue s c

/-- The step function `stateESign`. -/
def stateESign (s : Scanner) (c : Nat) : Except JsonError Scanner :=
  if isDigit c then .ok { s with step := .exp0 }
  else .error (.atChar c "in exponent of numeric literal")

/-- The step function `stateE`. -/
def stateE (s : Scanner) (c : Nat) : Except JsonError Scanner :=
  if c = 43 ∨ c = 45 then .ok { s with step := .expSign } else stateESign s c

/-- The step function `stateE0`. -/
def stateE0 (s : Scanner) (c : Nat) : Except JsonError Scanner :=
  if isDigit c then .ok s else stateEndValue s c

/-- The step functions of the literals `true`, `false` and `null`: the byte
`want` leads to the step `next`, any other byte is an error in `context`. -/
def stateLiteral (want : Nat) (next : ScanStep) (context : String) (s : Scanner) (c : Nat) :
    Except JsonError Scanner :=
  if c = want then .ok { s with step := next } else .error (.atChar c context)

/-- One call `s.step(s, c)`. -/
def Scanner.run (s : Scanner) (c : Nat) : Except JsonError Scanner :=
  match s.step with
  | .beginValueOrEmpty => stateBeginValueOrEmpty s c
  | .beginValue => stateBeginValue s c
  | .beginStringOrEmpty => stateBeginStringOrEmpty s c
  | .beginString => stateBeginString s c
  | .endValue => stateEndValue s c
  | .endTop => stateEndTop s c
  | .inString => stateInString s c
  | .inStringEsc => stateInStringEsc s c
  | .inStringEscU => stateInStringEscU .inStringEscU1 s c
  | .inStringEscU1 => stateInStringEscU .inStringEscU12 s c
  | .inStringEscU12 => stateInStringEscU .inStringEscU123 s c
  | .inStringEscU123 => stateInStringEscU .inString s c
  | .neg => stateNeg s c
  | .one => state1 s c
  | .zero => state0 s c
  | .dot => stateDot s c
  | .dot0 => stateDot0 s c
  | .exp => stateE s c
  | .expSign => stateESign s c
  | .exp0 => stateE0 s c
  | .litT => stateLiteral 114 .litTr "in literal true (expecting 'r')" s c
  | .litTr => stateLiteral 117 .litTru "in literal true (expecting 'u')" s c
  | .litTru => stateLiteral 101 .endValue "in literal true (expecting 'e')" s c
  | .litF => stateLiteral 97 .litFa "in literal false (expecting 'a')" s c
  | .litFa => stateLiteral 108 .litFal "in literal false (expecting 'l')" s c
  | .litFal => stateLiteral 115 .litFals "in literal false (expecting 's')" s c
  | .litFals => stateLiteral 101 .endValue "in literal false (expecting 'e')" s c
  | .litN => stateLiteral 117 .litNu "in literal null (expecting 'u')" s c
  | .litNu => stateLiteral 108 .litNul "in literal null (expecting 'l')" s c
  | .litNul => stateLiteral 108 .endValue "in literal null (expecting 'l')" s c

/-- The scanner over the bytes of the input, up to the first error. -/
def scanBytes : Scanner → List Nat → Except JsonError Scanner
  | s, [] => .ok s
  | s, c :: rest =>
    match s.run c with
    | .error err => .error err
    | .ok s1 => scanBytes s1 rest

/-- The method `eof`: the error of an input that ends here, if it is one. -/
def Scanner.eof (s : Scanner) : Option JsonError :=
  if s.endTop then none
  else
    match s.run 32 with
    | .error err => some err
    | .ok s1 => if s1.endTop then none else some .endOfInput

/-- The function `checkValid`: the error of the input as a JSON text, if it has
one. -/
def checkValid (data : List Nat) : Option JsonError :=
  match scanBytes { step := .beginValue, parseState := [], endTop := false } data with
  | .error err => some err
  | .ok s => s.eof

/-- The input without its leading white space. -/
def skipSpace : List Nat → List Nat
  | [] => []
  | c :: rest => if isSpace c then skipSpace rest else c :: rest

/-- The input after a string literal, from after its opening quote. -/
def skipString : List Nat → List Nat
  | [] => []
  | [_] => []
  | c :: d :: rest =>
    if c = 34 then d :: rest
    else if c = 92 then skipString rest
    else skipString (d :: rest)

/-- The input after an array or an object, from after its opening bracket:
`depth` brackets are open; `mode` is 1 inside a string literal, 2 after a
backslash in one, and 0 elsewhere. -/
def skipNested : Nat → Nat → List Nat → List Nat
  | _, _, [] => []
  | depth, mode, c :: rest =>
    if mode = 2 then skipNested depth 1 rest
    else if mode = 1 then
      if c = 34 then skipNested depth 0 rest
      else if c = 92 then skipNested depth 2 rest
      else skipNested depth 1 rest
    else if c = 34 then skipNested depth 1 rest
    else if c = 123 ∨ c = 91 then skipNested (depth + 1) 0 rest
    else if c = 125 ∨ c = 93 then (if depth ≤ 1 then rest else skipNested (depth - 1) 0 rest)
    else skipNested depth 0 rest

/-- The input after a number or one of `true`, `false`, `null`. -/
def skipLiteral : List Nat → List Nat
  | [] => []
  | c :: rest =>
    if isSpace c ∨ c = 44 ∨ c = 125 ∨ c = 93 then c :: rest else skipLiteral rest

/-- The input after the value that starts it (`d.skip()`). -/
def skipValue : List Nat → List Nat
  | [] => []
  | c :: rest =>
    if c = 34 then skipString rest
    else if c = 123 ∨ c = 91 then skipNested 1 0 rest
    else skipLiteral (c :: rest)

/-- The field `Value` of an `UnmarshalTypeError` for a value that starts with
the byte `c` and is neither a string nor `null`. -/
def valueKind (c : Nat) : String :=
  if c = 123 then "object"
  else if c = 91 then "array"
  else if c = 116 ∨ c = 102 then "bool"
  else "number"

/-- The names of the fields of `PersonData`, which are its `json` tags, in the
order of the struct. -/
def fieldNames : List String :=
  ["PassportNumber", "Name", "LastName", "City", "ResidentialAddress", "PhoneNumber",
    "FamilyStatus"]

/-- The function `foldName` of `encoding/json` as far as it decides the match
with a field of `PersonData`: ASCII letters in upper case, the long s (U+017F)
as `S` and the Kelvin sign (U+212A) as `K`; any other rune folds to a rune
outside ASCII and is kept as it is. -/
def foldName : GoString → GoString
  | [] => []
  | [c] => [if 97 ≤ c ∧ c ≤ 122 then c - 32 else c]
  | [c, d] => if c = 0xC5 ∧ d = 0xBF then [83] else
      (if 97 ≤ c ∧ c ≤ 122 then c - 32 else c) :: foldName [d]
  | c :: d :: e :: rest =>
    if c = 0xC5 ∧ d = 0xBF then 83 :: foldName (e :: rest)
    else if c = 0xE2 ∧ d = 0x84 ∧ e = 0xAA then 75 :: foldName rest
    else (if 97 ≤ c ∧ c ≤ 122 then c - 32 else c) :: foldName (d :: e :: rest)

/-- The field of `PersonData` for the key of a member: the field of that name,
or else the field whose folded name is the folded key. -/
def findField (key : GoString) : Option String :=
  match fieldNames.find? fun name => decide (utf8 name = key) with
  | some name => some name
  | none => fieldNames.find? fun name => decide (foldName (utf8 name) = foldName key)

/-- The record with the field `field` set to `value`. -/
def setField (r : PersonDataRaw) (field : String) (value : GoString) : PersonDataRaw :=
  if field = "PassportNumber" then { r with PassportNumber := value }
  else if field = "Name" then { r with Name := value }
  else if field = "LastName" then { r with LastName := value }
  else if field = "City" then { r with City := value }
  else if field = "ResidentialAddress" then { r with ResidentialAddress := value }
  else if field = "PhoneNumber" then { r with PhoneNumber := value }
  else if field = "FamilyStatus" then { r with FamilyStatus := value }
  else r

/-- The zero value of `PersonData`, which `var data PersonData` declares. -/
def zeroData : PersonDataRaw :=
  { PassportNumber := [], Name := [], LastName := [], City := [], ResidentialAddress := [],
    PhoneNumber := [], FamilyStatus := [] }

/-- The record after the member `key: value` with a string value: the field
of the key is set, an unknown key changes nothing. -/
def storeMember (r : PersonDataRaw) (key value : GoString) : PersonDataRaw :=
  match findField key with
  | some field => setField r field value
  | none => r

/-- The saved error after the member of `key` with a value that starts with
the byte `c` and is not a string: `null` and an unknown key change nothing,
any other value is an `UnmarshalTypeError`, of which the first is kept. -/
def saveMismatch (saved : Option JsonError) (key : GoString) (c : Nat) : Option JsonError :=
  match saved, findField key with
  | none, some field => if c = 110 then none else some (.mismatch (valueKind c) (some field))
  | _, _ => saved

/-- The loop of the method `object` of the decoder over the members of a valid
object, from before a key: a string sets the field of the key, `null` and the
member of an unknown key change nothing, any other value for a field is an
`UnmarshalTypeError`, of which the first is kept in `saved`.  `none` stands for
an input that `checkValid` refuses. -/
def decodeMembers : Nat → List Nat → PersonDataRaw → Option JsonError →
    Option (PersonDataRaw × Option JsonError)
  | 0, _, _, _ => none
  | fuel + 1, input, r, saved =>
    match skipSpace input with
    | 34 :: rest =>
      match unquoteLoop rest.length rest [] with
      | none => none
      | some (key, rest1) =>
        match skipSpace rest1 with
        | 58 :: rest2 =>
          match skipSpace rest2 with
          | [] => none
          | 34 :: body =>
            match unquoteLoop body.length body [] with
            | none => none
            | some (value, rest3) =>
              match skipSpace rest3 with
              | 44 :: rest4 => decodeMembers fuel rest4 (storeMember r key value) saved
              | 125 :: _ => some (storeMember r key value, saved)
              | _ => none
          | c :: body =>
            match skipSpace (skipValue (c :: body)) with
            | 44 :: rest4 => decodeMembers fuel rest4 r (saveMismatch saved key c)
            | 125 :: _ => some (r, saveMismatch saved key c)
            | _ => none
        | _ => none
    | _ => none

/-- The decoder on a valid JSON text, into a fresh `PersonData`: an object
sets the fields of its members, `null` changes nothing, any other value is an
`UnmarshalTypeError`. -/
def decodeValue (data : List Nat) : Option (Except JsonError PersonDataRaw) :=
  match skipSpace data with
  | [] => none
  | 123 :: rest =>
    match skipSpace rest with
    | 125 :: _ => some (.ok zeroData)
    | members =>
      match decodeMembers members.length members zeroData none with
      | none => none
      | some (r, none) => some (.ok r)
      | some (_, some err) => some (.error err)
  | 110 :: _ => some (.ok zeroData)
  | 34 :: _ => some (.error (.mismatch "string" none))
  | c :: _ => some (.error (.mismatch (valueKind c) none))

/-- Modelled from the spec: `json.Unmarshal` of `encoding/json` into a fresh
`PersonData`.  The input is checked as a JSON text first, then decoded.  (The
last case stands for a decoder out of step with the scanner, which the decoder
does not get into on an input that `checkValid` accepts.) -/
def goUnmarshal (data : List Nat) : Except JsonError PersonDataRaw :=
  match checkValid data with
  | some err => .error err
  | none =>
    match decodeValue data with
    | some result => result
    | none => .error .endOfInput

/-- The value is a Unicode scalar value: what a `Char` holds. -/
def IsScalar (n : Nat) : Prop :=
  n < 0xD800 ∨ (0xDFFF < n ∧ n < 0x110000)

/-- What the string encoder writes for one rune of a valid text. -/
def escRune (n : Nat) : List Nat :=
  if n < 0x80 then (if htmlSafe n then [n] else escapeByte n)
  else if n = 0x2028 ∨ n = 0x2029 then [92, 117, 50, 48, 50, hexDigit (n % 16)]
  else encodeRune n

/-- What the string encoder writes for the runes of a valid text. -/
def escText : List Char → List Nat
  | [] => []
  | ch :: rest => escRune ch.toNat ++ escText rest

/-- The runes of a byte sequence, as a `range` loop over a Go string gives
them: one for every valid encoding, U+FFFD for every other byte. -/
def runesLoop : Nat → GoString → List Char
  | 0, _ => []
  | _ + 1, [] => []
  | fuel + 1, b :: rest =>
    Char.ofNat (decodeRune (b :: rest)).1 ::
      runesLoop fuel ((b :: rest).drop (decodeRune (b :: rest)).2)

/-- The text of the runes of a byte sequence: the text that the sequence
encodes when it is valid UTF-8. -/
def textOf (b : GoString) : String :=
  String.mk (runesLoop b.length b)

/-- The text record of the runes of the fields: the record itself when its
fields are valid UTF-8. -/
def PersonDataRaw.toText (r : PersonDataRaw) : PersonData :=
  { PassportNumber := textOf r.PassportNumber
    Name := textOf r.Name
    LastName := textOf r.LastName
    City := textOf r.City
    ResidentialAddress := textOf r.ResidentialAddress
    PhoneNumber := textOf r.PhoneNumber
    FamilyStatus := textOf r.FamilyStatus }

/-- Modelled from the spec: the codec of `encoding/json` on records and stored
values that are texts: `json.Marshal` of a `PersonData` does not fail, and
`json.Unmarshal` returns the record or the text of its error. -/
def goCodec : Codec :=
  { marshal := fun r => .ok (textOf (goMarshal r.toRaw))
    unmarshal := fun v =>
      match goUnmarshal (utf8 v) with
      | .ok r => .ok r.toText
      | .error err => .error err.text }

/-- The first record of `datas` with a `Name` of one byte, 0xFF, which is not
valid UTF-8. -/
def invalidNameData : PersonDataRaw :=
  { firstData.toRaw with Name := [0xFF] }

/-- The first record of `datas` with a `Name` of one byte, 0xFE, which is not
valid UTF-8 either. -/
def otherInvalidNameData : PersonDataRaw :=
  { firstData.toRaw with Name := [0xFE] }

/-! ## Basic facts about the backend and the transaction functions -/

theorem alreadyExistsMsg_inj {k k' : String} (h : alreadyExistsMsg k = alreadyExistsMsg k') :
    k = k' := by
  unfold alreadyExistsMsg at h
  have h1 := congrArg String.data h
  simp only [String.data_append] at h1
  have h2 := List.append_cancel_right h1
  have h3 := List.append_cancel_left h2
  exact String.ext h3

theorem doesNotExistMsg_inj {k k' : String} (h : doesNotExistMsg k = doesNotExistMsg k') :
    k = k' := by
  unfold doesNotExistMsg at h
  have h1 := congrArg String.data h
  simp only [String.data_append] at h1
  have h2 := List.append_cancel_right h1
  have h3 := List.append_cancel_left h2
  exact String.ext h3

theorem written_world_self (s : Stub) (k : String) (v : Bytes) :
    (s.written k v).world k = some v := by
  simp [Stub.written]

theorem written_history_self (s : Stub) (k : String) (v : Bytes) :
    (s.written k v).history k = s.history k ++ [v] := by
  simp [Stub.written]

theorem written_responsive {s : Stub} (h : s.Responsive) (k : String) (v : Bytes) :
    (s.written k v).Responsive := h

theorem emptyStub_responsive : emptyStub.Responsive :=
  ⟨fun _ => rfl, fun _ => rfl, fun _ => rfl, fun _ _ => rfl⟩

theorem exists_of_getState {s : Stub} {k : String} (hg : s.getStateErr k = none) :
    PersonDataExists k s = (.ok (s.world k != none), s) := by
  simp [PersonDataExists, Stub.GetState, hg]

theorem create_of_absent {c : Codec} {s : Stub} {k : String} {p : Payload} {b : Bytes}
    (hg : s.getStateErr k = none) (hp : s.putStateErr k = none) (hw : s.world k = none)
    (hm : c.marshal (p.record k) = .ok b) :
    create c k p s = (.ok (), s.written k b) := by
  have hm' := hm
  simp only [Payload.record] at hm'
  simp [create, CreatePersonData, exists_of_getState hg, hw, hm', Stub.PutState, hp]

theorem create_of_present {c : Codec} {s : Stub} {k : String} {p : Payload} {v : Bytes}
    (hg : s.getStateErr k = none) (hw : s.world k = some v) :
    create c k p s = (.error (alreadyExistsMsg k), s) := by
  simp [create, CreatePersonData, exists_of_getState hg, hw]

theorem update_of_present {c : Codec} {s : Stub} {k : String} {p : Payload} {v b : Bytes}
    (hg : s.getStateErr k = none) (hp : s.putStateErr k = none) (hw : s.world k = some v)
    (hm : c.marshal (p.record k) = .ok b) :
    update c k p s = (.ok (), s.written k b) := by
  have hm' := hm
  simp only [Payload.record] at hm'
  simp [update, UpdatePersonData, exists_of_getState hg, hw, hm', Stub.PutState, hp]

theorem update_of_absent {c : Codec} {s : Stub} {k : String} {p : Payload}
    (hg : s.getStateErr k = none) (hw : s.world k = none) :
    update c k p s = (.error (doesNotExistMsg k), s) := by
  simp [update, UpdatePersonData, exists_of_getState hg, hw]

theorem read_of_present {c : Codec} {s : Stub} {k : String} {v : Bytes} {r : PersonData}
    (hg : s.getStateErr k = none) (hw : s.world k = some v) (hu : c.unmarshal v = .ok r) :
    ReadPersonData c k s = (.ok r, s) := by
  simp [ReadPersonData, Stub.GetState, hg, hw, hu]

theorem read_of_absent {c : Codec} {s : Stub} {k : String}
    (hg : s.getStateErr k = none) (hw : s.world k = none) :
    ReadPersonData c k s = (.error (doesNotExistMsg k), s) := by
  simp [ReadPersonData, Stub.GetState, hg, hw]

theorem changes_of_absent {c : Codec} {s : Stub} {k : String}
    (hg : s.getStateErr k = none) (hw : s.world k = none) :
    PersonDataChanges c k s = (.error (doesNotExistMsg k), s) := by
  simp [PersonDataChanges, exists_of_getState hg, hw]

theorem changes_of_present {c : Codec} {s : Stub} {k : String} {v : Bytes}
    (hg : s.getStateErr k = none) (hh : s.getHistoryErr k = none) (hw : s.world k = some v) :
    PersonDataChanges c k s =
      (changesLoop c (historyItems (s.nextErr k) 0 (s.history k)) [], s) := by
  simp [PersonDataChanges, exists_of_getState hg, hw, Stub.GetHistoryForKey, hh]

theorem historyItems_of_noErr {f : Nat → Option String} (hf : ∀ i, f i = none) :
    ∀ (vs : List Bytes) (i : Nat),
      historyItems f i vs = vs.map fun v => Except.ok { Value := v }
  | [], _ => rfl
  | v :: vs, i => by
    simp [historyItems, hf i, historyItems_of_noErr hf vs (i + 1)]

theorem changesLoop_reads (c : Codec) :
    ∀ (vs : List Bytes) (rs acc : List PersonData), List.Forall₂ c.Reads vs rs →
      changesLoop c (vs.map fun v => Except.ok { Value := v }) acc = .ok (acc ++ rs)
  | [], _, acc, h => by
    cases h
    simp [changesLoop]
  | v :: vs, _, acc, h => by
    cases h with
    | cons hv hrest =>
      have hv' : c.unmarshal v = .ok _ := hv
      simp [changesLoop, hv', changesLoop_reads c vs _ (acc ++ [_]) hrest]

theorem getLastD_cons_eq {α : Type} (q p : α) (qs : List α) :
    (q :: qs).getLastD p = qs.getLastD q := by
  cases qs <;> simp [List.getLastD]

theorem updates_spec (c : Codec) (k : String) (h0 : List Bytes) :
    ∀ (ps : List Payload) (s : Stub) (hs : List Bytes) (rs : List PersonData) (p : Payload),
      s.Responsive → s.history k = h0 ++ hs → List.Forall₂ c.Reads hs rs →
      (∃ v, s.world k = some v ∧ c.Reads v (p.record k)) →
      (∀ q ∈ ps, c.RoundTrips (q.record k)) →
      (updates c k ps s).1 = .ok () ∧ (updates c k ps s).2.Responsive ∧
        (∃ hs', (updates c k ps s).2.history k = h0 ++ hs' ∧
          List.Forall₂ c.Reads hs' (rs ++ ps.map (Payload.record k))) ∧
        ∃ v, (updates c k ps s).2.world k = some v ∧
          c.Reads v ((ps.getLastD p).record k)
  | [], s, hs, rs, p, hr, hh, hf, hw, _ => by
    refine ⟨rfl, hr, ⟨hs, hh, by simpa using hf⟩, hw⟩
  | q :: qs, s, hs, rs, p, hr, hh, hf, hw, hrt => by
    obtain ⟨v, hv, _⟩ := hw
    obtain ⟨b, hm, hu⟩ := hrt q (List.mem_cons_self _ _)
    have hstep : update c k q s = (.ok (), s.written k b) :=
      update_of_present (hr.1 k) (hr.2.1 k) hv hm
    have hh' : (s.written k b).history k = h0 ++ (hs ++ [b]) := by
      rw [written_history_self, hh, List.append_assoc]
    have hf' : List.Forall₂ c.Reads (hs ++ [b]) (rs ++ [q.record k]) :=
      List.rel_append hf (List.Forall₂.cons hu List.Forall₂.nil)
    have ih := updates_spec c k h0 qs (s.written k b) (hs ++ [b]) (rs ++ [q.record k]) q
      (written_responsive hr k b) hh' hf' ⟨b, written_world_self s k b, hu⟩
      (fun q' hq' => hrt q' (List.mem_cons_of_mem _ hq'))
    have hrun : updates c k (q :: qs) s = updates c k qs (s.written k b) := by
      simp [updates, hstep]
    rw [hrun, getLastD_cons_eq]
    simpa using ih

theorem create_then_updates (c : Codec) (s : Stub) (k : String) (p0 : Payload)
    (ps : List Payload) (hr : s.Responsive) (hw : s.world k = none)
    (hrt : ∀ p ∈ p0 :: ps, c.RoundTrips (p.record k)) :
    (create c k p0 s).1 = .ok () ∧ (updates c k ps (create c k p0 s).2).1 = .ok () ∧
      (updates c k ps (create c k p0 s).2).2.Responsive ∧
      (∃ hs, (updates c k ps (create c k p0 s).2).2.history k = s.history k ++ hs ∧
        List.Forall₂ c.Reads hs ((p0 :: ps).map (Payload.record k))) ∧
      ∃ v, (updates c k ps (create c k p0 s).2).2.world k = some v ∧
        c.Reads v ((ps.getLastD p0).record k) := by
  obtain ⟨b, hm, hu⟩ := hrt p0 (List.mem_cons_self _ _)
  have hc : create c k p0 s = (.ok (), s.written k b) :=
    create_of_absent (hr.1 k) (hr.2.1 k) hw hm
  have h := updates_spec c k (s.history k) ps (s.written k b) [b] [p0.record k] p0
    (written_responsive hr k b) (written_history_self s k b)
    (List.Forall₂.cons hu List.Forall₂.nil) ⟨b, written_world_self s k b, hu⟩
    (fun q hq => hrt q (List.mem_cons_of_mem _ hq))
  rw [hc]
  exact ⟨rfl, by simpa using h⟩

theorem record_inj {k : String} {p p' : Payload} (h : p.record k = p'.record k) : p = p' := by
  cases p
  cases p'
  simp only [Payload.record, PersonData.mk.injEq] at h
  simp [h]

theorem jsonCodec_roundTrips_examples (k : String) (hk : k = "3") :
    ∀ p ∈ [payloadA, payloadB, payloadA], jsonCodec.RoundTrips (p.record k) := by
  subst hk
  intro p hp
  simp only [List.mem_cons, List.mem_singleton, List.not_mem_nil, or_false] at hp
  rcases hp with rfl | rfl | rfl <;> exact ⟨_, rfl, rfl⟩

theorem exists_snd (k : String) (s : Stub) : (PersonDataExists k s).2 = s := by
  unfold PersonDataExists Stub.GetState
  cases s.getStateErr k <;> rfl

theorem read_snd (c : Codec) (k : String) (s : Stub) : (ReadPersonData c k s).2 = s := by
  unfold ReadPersonData Stub.GetState
  cases s.getStateErr k with
  | some err => rfl
  | none =>
    cases s.world k with
    | none => rfl
    | some v =>
      dsimp only
      cases c.unmarshal v <;> rfl

theorem changes_snd (c : Codec) (k : String) (s : Stub) : (PersonDataChanges c k s).2 = s := by
  unfold PersonDataChanges PersonDataExists Stub.GetState Stub.GetHistoryForKey
  cases s.getStateErr k with
  | some err => rfl
  | none =>
    cases s.world k with
    | none => rfl
    | some v =>
      cases hh : s.getHistoryErr k <;> simp [hh]

theorem create_error_snd (c : Codec) (k : String) (p : Payload) (s : Stub)
    (herr : (create c k p s).1.isError = true) : (create c k p s).2 = s := by
  unfold create CreatePersonData PersonDataExists Stub.GetState Stub.PutState at *
  cases hg : s.getStateErr k with
  | some err => simp [hg]
  | none =>
    cases hw : s.world k with
    | some v => simp [hg, hw]
    | none =>
      cases hm : c.marshal
          { PassportNumber := k, Name := p.name, LastName := p.lastName, City := p.city,
            ResidentialAddress := p.residentialAddress, PhoneNumber := p.phoneNumber,
            FamilyStatus := p.familyStatus } with
      | error err => simp [hg, hw, hm]
      | ok b =>
        cases hp : s.putStateErr k with
        | some err => simp [hg, hw, hm, hp]
        | none => simp [hg, hw, hm, hp, Outcome.isError] at herr

theorem update_error_snd (c : Codec) (k : String) (p : Payload) (s : Stub)
    (herr : (update c k p s).1.isError = true) : (update c k p s).2 = s := by
  unfold update UpdatePersonData PersonDataExists Stub.GetState Stub.PutState at *
  cases hg : s.getStateErr k with
  | some err => simp [hg]
  | none =>
    cases hw : s.world k with
    | none => simp [hg, hw]
    | some v =>
      cases hm : c.marshal
          { PassportNumber := k, Name := p.name, LastName := p.lastName, City := p.city,
            ResidentialAddress := p.residentialAddress, PhoneNumber := p.phoneNumber,
            FamilyStatus := p.familyStatus } with
      | error err => simp [hg, hw, hm]
      | ok b =>
        cases hp : s.putStateErr k with
        | some err => simp [hg, hw, hm, hp]
        | none => simp [hg, hw, hm, hp, Outcome.isError] at herr

theorem init_error_snd (c : Codec) (s : Stub) (herr : (InitLedger c s).1.isError = true) :
    (InitLedger c s).2 = s ∨
      ∃ d b, datas.head? = some d ∧ c.marshal d = .ok b ∧
        (InitLedger c s).2 = s.written d.PassportNumber b := by
  unfold InitLedger datas at *
  simp only [initLoop, Stub.PutState, List.head?] at *
  cases hm1 : c.marshal
      { PassportNumber := "1", Name := "Ildar", LastName := "Zinatulin", City := "Moscow",
        ResidentialAddress := "Some street, house 1, apartment 10",
        PhoneNumber := "+79999999999", FamilyStatus := "Not married" } with
  | error err => simp
  | ok b1 =>
    cases hp1 : s.putStateErr "1" with
    | some err => simp [hp1]
    | none =>
      right
      refine ⟨_, b1, rfl, hm1, ?_⟩
      cases hm2 : c.marshal
          { PassportNumber := "2", Name := "Artem", LastName := "Barger", City := "Moscow",
            ResidentialAddress := "Some street, house 1, apartment 11",
            PhoneNumber := "+79999999998", FamilyStatus := "No data" } with
      | error err => simp [hp1]
      | ok b2 =>
        cases hp2 : (s.written "1" b1).putStateErr "2" with
        | some err => simp [hp1, hp2]
        | none => simp [hm1, hp1, hm2, hp2, Outcome.isError] at herr

theorem historyItems_mem {f : Nat → Option String} {b : Bytes} :
    ∀ (vs : List Bytes) (i : Nat), b ∈ vs →
      ∃ it ∈ historyItems f i vs, (∃ e, it = Except.error e) ∨ it = Except.ok { Value := b }
  | [], _, h => by simp at h
  | v :: vs, i, h => by
    rcases List.mem_cons.mp h with rfl | h'
    · refine ⟨_, List.mem_cons_self _ _, ?_⟩
      cases f i with
      | some err => exact Or.inl ⟨err, rfl⟩
      | none => exact Or.inr rfl
    · obtain ⟨it, hit, hprop⟩ := historyItems_mem vs (i + 1) h'
      exact ⟨it, List.mem_cons_of_mem _ hit, hprop⟩

theorem changesLoop_bad (c : Codec) :
    ∀ (items : List (Except String KeyModification)) (acc : List PersonData),
      (∃ it ∈ items, (∃ e, it = Except.error e) ∨
        ∃ b e, it = Except.ok { Value := b } ∧ c.unmarshal b = .error e) →
      ∃ msg, changesLoop c items acc = .error msg
  | [], _, h => by
    obtain ⟨it, hit, _⟩ := h
    simp at hit
  | .error err :: rest, acc, _ => ⟨err, rfl⟩
  | .ok hv :: rest, acc, h => by
    cases hu : c.unmarshal hv.Value with
    | error err => exact ⟨err, by simp [changesLoop, hu]⟩
    | ok r =>
      have hrest : ∃ it ∈ rest, (∃ e, it = Except.error e) ∨
          ∃ b e, it = Except.ok { Value := b } ∧ c.unmarshal b = .error e := by
        obtain ⟨it, hit, hprop⟩ := h
        rcases List.mem_cons.mp hit with rfl | hit'
        · rcases hprop with ⟨e, he⟩ | ⟨b, e, hb, he⟩
          · cases he
          · cases hb
            rw [hu] at he
            cases he
        · exact ⟨it, hit', hprop⟩
      obtain ⟨msg, hmsg⟩ := changesLoop_bad c rest (acc ++ [r]) hrest
      exact ⟨msg, by simp [changesLoop, hu, hmsg]⟩

theorem changesLoop_first_bad (c : Codec) {bad : Bytes} {e : String}
    (hbad : c.unmarshal bad = .error e) (rest : List Bytes) :
    ∀ (good : List Bytes) (acc : List PersonData), (∀ g ∈ good, ∃ r, c.unmarshal g = .ok r) →
      changesLoop c ((good ++ bad :: rest).map fun v => Except.ok { Value := v }) acc
        = .error e
  | [], acc, _ => by simp [changesLoop, hbad]
  | g :: good, acc, h => by
    obtain ⟨r, hr⟩ := h g (List.mem_cons_self _ _)
    have ih := changesLoop_first_bad c hbad rest good (acc ++ [r])
      (fun g' hg' => h g' (List.mem_cons_of_mem _ hg'))
    simpa [changesLoop, hr] using ih

theorem getState_failure_propagates (c : Codec) (s : Stub) (k : String) (p : Payload)
    (e : String) (hg : s.getStateErr k = some e) :
    (PersonDataExists k s).1 = .error ("failed to read from world state: " ++ e) ∧
      (create c k p s).1 = .error ("failed to read from world state: " ++ e) ∧
      (ReadPersonData c k s).1 = .error ("failed to read from world state: " ++ e) ∧
      (update c k p s).1 = .error ("failed to read from world state: " ++ e) ∧
      (PersonDataChanges c k s).1 = .error ("failed to read from world state: " ++ e) := by
  simp [PersonDataExists, create, CreatePersonData, ReadPersonData, update, UpdatePersonData,
    PersonDataChanges, Stub.GetState, hg]

theorem putState_failure_propagates (c : Codec) (s : Stub) (k : String) (p : Payload)
    (v b : Bytes) (e : String) (hg : s.getStateErr k = none) (hp : s.putStateErr k = some e)
    (hm : c.marshal (p.record k) = .ok b) :
    (s.world k = none → (create c k p s).1 = .error e) ∧
      (s.world k = some v → (update c k p s).1 = .error e) := by
  have hm' := hm
  simp only [Payload.record] at hm'
  constructor
  · intro hw
    simp [create, CreatePersonData, exists_of_getState hg, hw, hm', Stub.PutState, hp]
  · intro hw
    simp [update, UpdatePersonData, exists_of_getState hg, hw, hm', Stub.PutState, hp]

/-! ## The claims -/

/-- C1 (create-once): from a backend whose calls succeed and in which `k` is
absent, `CreatePersonData(k, p)` succeeds; a following `CreatePersonData(k, p')`
fails with the already-exists message, which determines `k`, and writes
nothing; `ReadPersonData(k)` after both calls returns the record built from `p`
with `PassportNumber = k`, and not the record of a different `p'`. -/
theorem create_once (c : Codec) (s : Stub) (k : String) (p p' : Payload)
    (hr : s.Responsive) (hw : s.world k = none) (hrt : c.RoundTrips (p.record k)) :
    (create c k p s).1 = .ok () ∧
      create c k p' (create c k p s).2 = (.error (alreadyExistsMsg k), (create c k p s).2) ∧
      (∀ k', alreadyExistsMsg k' = alreadyExistsMsg k → k' = k) ∧
      (ReadPersonData c k (create c k p' (create c k p s).2).2).1 = .ok (p.record k) ∧
      (p.record k).PassportNumber = k ∧
      (p' ≠ p →
        (ReadPersonData c k (create c k p' (create c k p s).2).2).1 ≠ .ok (p'.record k)) := by
  obtain ⟨b, hm, hu⟩ := hrt
  have hc : create c k p s = (.ok (), s.written k b) :=
    create_of_absent (hr.1 k) (hr.2.1 k) hw hm
  have hc' : create c k p' (s.written k b) = (.error (alreadyExistsMsg k), s.written k b) :=
    create_of_present (hr.1 k) (written_world_self s k b)
  have hrd : ReadPersonData c k (s.written k b) = (.ok (p.record k), s.written k b) :=
    read_of_present (hr.1 k) (written_world_self s k b) hu
  have hrd' : (ReadPersonData c k (create c k p' (s.written k b)).2).1 = .ok (p.record k) := by
    rw [hc', hrd]
  rw [hc]
  refine ⟨rfl, hc', fun k' h => alreadyExistsMsg_inj h, hrd', rfl, ?_⟩
  intro hne h
  exact hne (record_inj (Outcome.ok.inj (hrd'.symm.trans h))).symm

/-- C1 at key "3" on the empty backend. -/
theorem create_once_witness :
    (create jsonCodec "3" payloadB (create jsonCodec "3" payloadA emptyStub).2).1
        = .error "the person's data with passport number 3 already exists" ∧
      (ReadPersonData jsonCodec "3"
        (create jsonCodec "3" payloadB (create jsonCodec "3" payloadA emptyStub).2).2).1
        = .ok (payloadA.record "3") :=
  have h := create_once jsonCodec emptyStub "3" payloadA payloadB emptyStub_responsive rfl
    ⟨_, rfl, rfl⟩
  ⟨congrArg Prod.fst h.2.1, h.2.2.2.1⟩

/-- C2 (history completeness): from a backend whose calls succeed and that holds
neither a value nor a version for `k`, after `CreatePersonData(k, p0)` and
`UpdatePersonData(k, p1)`, ..., `UpdatePersonData(k, pn)`, all of which succeed,
`PersonDataChanges(k)` returns exactly the records of `p0, p1, ..., pn` in this
order, `n + 1` of them. -/
theorem history_complete (c : Codec) (s : Stub) (k : String) (p0 : Payload)
    (ps : List Payload) (hr : s.Responsive) (hw : s.world k = none) (hh : s.history k = [])
    (hrt : ∀ p ∈ p0 :: ps, c.RoundTrips (p.record k)) :
    (create c k p0 s).1 = .ok () ∧ (updates c k ps (create c k p0 s).2).1 = .ok () ∧
      (PersonDataChanges c k (updates c k ps (create c k p0 s).2).2).1
        = .ok ((p0 :: ps).map (Payload.record k)) ∧
      ((p0 :: ps).map (Payload.record k)).length = ps.length + 1 := by
  obtain ⟨h1, h2, h3, ⟨hs, hhs, hf⟩, v, hv, _⟩ := create_then_updates c s k p0 ps hr hw hrt
  refine ⟨h1, h2, ?_, by simp⟩
  rw [changes_of_present (h3.1 k) (h3.2.2.1 k) hv, historyItems_of_noErr (h3.2.2.2 k), hhs, hh]
  simpa using changesLoop_reads c hs _ [] hf

/-- C2 at key "3" on the empty backend, with one create and two updates. -/
theorem history_complete_witness :
    (PersonDataChanges jsonCodec "3"
        (updates jsonCodec "3" [payloadB, payloadA]
          (create jsonCodec "3" payloadA emptyStub).2).2).1
      = .ok [payloadA.record "3", payloadB.record "3", payloadA.record "3"] :=
  (history_complete jsonCodec emptyStub "3" payloadA [payloadB, payloadA] emptyStub_responsive
    rfl rfl (jsonCodec_roundTrips_examples "3" rfl)).2.2.1

/-- C3 (read reflects latest): from a backend whose calls succeed and in which
`k` is absent, after `CreatePersonData(k, p0)` and the updates of `k` with the
payloads `ps`, all of which succeed, `ReadPersonData(k)` returns the record of
the last payload of `ps`, or the record of `p0` when `ps` is empty. -/
theorem read_reflects_latest (c : Codec) (s : Stub) (k : String) (p0 : Payload)
    (ps : List Payload) (hr : s.Responsive) (hw : s.world k = none)
    (hrt : ∀ p ∈ p0 :: ps, c.RoundTrips (p.record k)) :
    (create c k p0 s).1 = .ok () ∧ (updates c k ps (create c k p0 s).2).1 = .ok () ∧
      (ReadPersonData c k (updates c k ps (create c k p0 s).2).2).1
        = .ok ((ps.getLastD p0).record k) := by
  obtain ⟨h1, h2, h3, _, v, hv, hu⟩ := create_then_updates c s k p0 ps hr hw hrt
  refine ⟨h1, h2, ?_⟩
  rw [read_of_present (h3.1 k) hv hu]

/-- C3 at key "3" on the empty backend: the second of two updates is read. -/
theorem read_reflects_latest_witness :
    (ReadPersonData jsonCodec "3"
        (updates jsonCodec "3" [payloadB, payloadA]
          (create jsonCodec "3" payloadA emptyStub).2).2).1
      = .ok (payloadA.record "3") :=
  (read_reflects_latest jsonCodec emptyStub "3" payloadA [payloadB, payloadA]
    emptyStub_responsive rfl (jsonCodec_roundTrips_examples "3" rfl)).2.2

/-- C4 (update requires existence): when `k` is absent and the lookup of `k`
answers, `UpdatePersonData(k, p)` fails with the not-found message, leaves the
backend as it was (no write), and `PersonDataExists(k)` is still false. -/
theorem update_requires_existence (c : Codec) (s : Stub) (k : String) (p : Payload)
    (hg : s.getStateErr k = none) (hw : s.world k = none) :
    update c k p s = (.error (doesNotExistMsg k), s) ∧
      (PersonDataExists k (update c k p s).2).1 = .ok false := by
  rw [update_of_absent hg hw]
  simp [exists_of_getState hg, hw]

/-- C4 at key "999" on the empty backend. -/
theorem update_requires_existence_witness :
    update jsonCodec "999" payloadA emptyStub
        = (.error "the person with passport number 999 does not exist", emptyStub) ∧
      (PersonDataExists "999" (update jsonCodec "999" payloadA emptyStub).2).1 = .ok false :=
  update_requires_existence jsonCodec emptyStub "999" payloadA rfl rfl

/-- C5 (key-not-found symmetry): when `k` is absent and the lookup of `k`
answers, `ReadPersonData(k)`, `UpdatePersonData(k, p)` and
`PersonDataChanges(k)` all fail with the same not-found message, which
determines `k`. -/
theorem not_found_symmetry (c : Codec) (s : Stub) (k : String) (p : Payload)
    (hg : s.getStateErr k = none) (hw : s.world k = none) :
    (ReadPersonData c k s).1 = .error (doesNotExistMsg k) ∧
      (update c k p s).1 = .error (doesNotExistMsg k) ∧
      (PersonDataChanges c k s).1 = .error (doesNotExistMsg k) ∧
      ∀ k', doesNotExistMsg k' = doesNotExistMsg k → k' = k := by
  rw [read_of_absent hg hw, update_of_absent hg hw, changes_of_absent hg hw]
  exact ⟨rfl, rfl, rfl, fun k' h => doesNotExistMsg_inj h⟩

/-- C5 at key "999" on the empty backend. -/
theorem not_found_symmetry_witness :
    (ReadPersonData jsonCodec "999" emptyStub).1
        = .error "the person with passport number 999 does not exist" ∧
      (PersonDataChanges jsonCodec "999" emptyStub).1
        = .error "the person with passport number 999 does not exist" :=
  have h := not_found_symmetry jsonCodec emptyStub "999" payloadA rfl rfl
  ⟨h.1, h.2.2.1⟩

/-- C6: when the lookup of `k` answers, `PersonDataExists(k)` returns true if and
only if the backend holds a current value for `k`, and false if and only if it
holds the absent sentinel; a present but empty value is reported as existing. -/
theorem exists_iff_present (s : Stub) (k : String) (hg : s.getStateErr k = none) :
    ((PersonDataExists k s).1 = .ok true ↔ ∃ v, s.world k = some v) ∧
      ((PersonDataExists k s).1 = .ok false ↔ s.world k = none) ∧
      (s.world k = some "" → (PersonDataExists k s).1 = .ok true) := by
  rw [exists_of_getState hg]
  cases h : s.world k <;> simp

/-- C6 on a backend that holds the empty value under "5". -/
theorem exists_iff_present_witness :
    (PersonDataExists "5" (emptyStub.written "5" "")).1 = .ok true :=
  (exists_iff_present (emptyStub.written "5" "") "5" rfl).2.2 rfl

/-- C7 (failing input): the key "1" exists and `GetHistoryForKey` fails;
`PersonDataChanges("1")` does not return an error, it crashes on the nil
iterator, whatever the codec. -/
theorem changes_crashes_when_history_fails (c : Codec) :
    (PersonDataExists "1" historyDownStub).1 = .ok true ∧
      (historyDownStub.GetHistoryForKey "1").1.toOption.isNone = true ∧
      (PersonDataChanges c "1" historyDownStub).1 = .crash :=
  ⟨rfl, rfl, rfl⟩

/-- C8 (counterexample): on the empty backend with the write of key "2"
failing, `InitLedger` returns an error, and the record of key "1" that it wrote
before is there: the backend is not what it was before the call. -/
theorem initLedger_error_after_write :
    (InitLedger jsonCodec putFailsStub).1
        = .error "failed to put to world state. unavailable" ∧
      putFailsStub.world "1" = none ∧
      (InitLedger jsonCodec putFailsStub).2.world "1" ≠ none ∧
      (InitLedger jsonCodec putFailsStub).2.history "1" ≠ putFailsStub.history "1" :=
  ⟨rfl, rfl, by decide, by decide⟩

/-- C8 (amended): a call that returns an error leaves the backend exactly as it
was, unless it is `InitLedger`; `InitLedger` that returns an error leaves the
backend as it was or with the first record of `datas` written under its
passport number, and nothing else. -/
theorem failure_atomicity (c : Codec) (call : Call) (s : Stub)
    (herr : (call.run c s).1.isError = true) :
    (call.run c s).2 = s ∨
      (call = .initLedger ∧
        ∃ d b, datas.head? = some d ∧ c.marshal d = .ok b ∧
          (call.run c s).2 = s.written d.PassportNumber b) := by
  cases call with
  | initLedger =>
    rcases init_error_snd c s herr with h | h
    · exact Or.inl h
    · exact Or.inr ⟨rfl, h⟩
  | personDataExists k => exact Or.inl (exists_snd k s)
  | createPersonData k p => exact Or.inl (create_error_snd c k p s herr)
  | readPersonData k => exact Or.inl (read_snd c k s)
  | updatePersonData k p => exact Or.inl (update_error_snd c k p s herr)
  | personDataChanges k => exact Or.inl (changes_snd c k s)

/-- C8 (amended) at a failing update of the absent key "999". -/
theorem failure_atomicity_witness :
    (Call.run jsonCodec (.updatePersonData "999" payloadA) emptyStub).1.isError = true ∧
      ((Call.run jsonCodec (.updatePersonData "999" payloadA) emptyStub).2 = emptyStub ∨
        (Call.updatePersonData "999" payloadA = .initLedger ∧
          ∃ d b, datas.head? = some d ∧ jsonCodec.marshal d = .ok b ∧
            (Call.run jsonCodec (.updatePersonData "999" payloadA) emptyStub).2
              = emptyStub.written d.PassportNumber b)) :=
  ⟨rfl, failure_atomicity jsonCodec (.updatePersonData "999" payloadA) emptyStub rfl⟩

/-- C9 (fail-fast history): when `k` exists and some version in the history of
`k` does not deserialize, `PersonDataChanges(k)` never returns a list of
records, and it returns an error whenever `GetHistoryForKey(k)` answers. -/
theorem history_fail_fast (c : Codec) (s : Stub) (k : String) (v b : Bytes) (e : String)
    (hg : s.getStateErr k = none) (hw : s.world k = some v)
    (hb : b ∈ s.history k) (he : c.unmarshal b = .error e) :
    (∀ rs, (PersonDataChanges c k s).1 ≠ .ok rs) ∧
      (s.getHistoryErr k = none → ∃ msg, (PersonDataChanges c k s).1 = .error msg) := by
  have hmain : s.getHistoryErr k = none → ∃ msg, (PersonDataChanges c k s).1 = .error msg := by
    intro hh
    rw [changes_of_present hg hh hw]
    obtain ⟨it, hit, hprop⟩ := historyItems_mem (s.history k) 0 hb
    apply changesLoop_bad c _ []
    refine ⟨it, hit, ?_⟩
    rcases hprop with h | h
    · exact Or.inl h
    · exact Or.inr ⟨b, e, h, he⟩
  refine ⟨?_, hmain⟩
  intro rs hrs
  cases hh : s.getHistoryErr k with
  | none =>
    obtain ⟨msg, hmsg⟩ := hmain hh
    rw [hmsg] at hrs
    cases hrs
  | some err =>
    simp [PersonDataChanges, exists_of_getState hg, hw, Stub.GetHistoryForKey, hh] at hrs

/-- C9 on a history whose second version is not a record. -/
theorem history_fail_fast_witness :
    ∃ msg, (PersonDataChanges jsonCodec "1" corruptAt1).1 = .error msg :=
  (history_fail_fast jsonCodec corruptAt1 "1" "x" "x" "invalid JSON input" rfl rfl
    (by decide) rfl).2 rfl

/-- C10 (counterexample): the first version that does not deserialize is at
position 0 of one history and at position 1 of the other, and
`PersonDataChanges` returns the same error for both. -/
theorem history_error_names_no_position :
    corruptAt0.history "1" = ["x"] ∧
      (∃ good, corruptAt1.history "1" = [good, "x"] ∧
        jsonCodec.unmarshal good = .ok (payloadA.record "1")) ∧
      jsonCodec.unmarshal "x" = .error "invalid JSON input" ∧
      (PersonDataChanges jsonCodec "1" corruptAt0).1 = .error "invalid JSON input" ∧
      (PersonDataChanges jsonCodec "1" corruptAt1).1 = .error "invalid JSON input" :=
  ⟨rfl, ⟨_, rfl, rfl⟩, rfl, rfl, rfl⟩

/-- C10 (amended): when `k` exists, the backend calls answer, the versions
before position `good.length` of the history of `k` deserialize and the version
`bad` at that position does not, `PersonDataChanges(k)` returns the error of the
deserialization of `bad`, unchanged: it depends on `bad` alone, not on the
position. -/
theorem history_error_is_codec_error (c : Codec) (s : Stub) (k : String) (v bad : Bytes)
    (good rest : List Bytes) (e : String)
    (hg : s.getStateErr k = none) (hh : s.getHistoryErr k = none)
    (hn : ∀ i, s.nextErr k i = none) (hw : s.world k = some v)
    (hsplit : s.history k = good ++ bad :: rest)
    (hgood : ∀ g ∈ good, ∃ r, c.unmarshal g = .ok r) (hbad : c.unmarshal bad = .error e) :
    (PersonDataChanges c k s).1 = .error e := by
  rw [changes_of_present hg hh hw, historyItems_of_noErr hn, hsplit]
  exact changesLoop_first_bad c hbad rest good [] hgood

/-- C10 (amended) on a history whose only version is not a record. -/
theorem history_error_is_codec_error_witness :
    (PersonDataChanges jsonCodec "1" corruptAt0).1 = .error "invalid JSON input" :=
  history_error_is_codec_error jsonCodec corruptAt0 "1" "x" "x" [] [] "invalid JSON input"
    rfl rfl (fun _ => rfl) rfl rfl (by simp) rfl

/-! ## The text of the JSON codec -/

theorem quote_ne_backslash : quoteChar ≠ backslashChar := by decide

theorem readChars_quote (t acc : List Char) :
    readChars (quoteChar :: t) acc = some (acc.reverse, t) := by
  cases t <;> simp [readChars]

theorem readChars_plain {ch : Char} (h1 : ch ≠ quoteChar) (h2 : ch ≠ backslashChar)
    (t acc : List Char) : readChars (ch :: t) acc = readChars t (ch :: acc) := by
  cases t <;> simp [readChars, h1, h2]

theorem readChars_escaped {next : Char} (h : next = quoteChar ∨ next = backslashChar)
    (t acc : List Char) :
    readChars (backslashChar :: next :: t) acc = readChars t (next :: acc) := by
  have hb : backslashChar ≠ quoteChar := fun h => quote_ne_backslash h.symm
  simp [readChars, hb, h]

theorem readChars_escapeChars :
    ∀ (cs acc rest : List Char),
      readChars (escapeChars cs ++ quoteChar :: rest) acc = some (acc.reverse ++ cs, rest)
  | [], acc, rest => by simp [escapeChars, readChars_quote]
  | ch :: cs, acc, rest => by
    by_cases h : ch = quoteChar ∨ ch = backslashChar
    · simp [escapeChars, h, readChars_escaped h, readChars_escapeChars cs (ch :: acc) rest]
    · have h1 : ch ≠ quoteChar := fun e => h (Or.inl e)
      have h2 : ch ≠ backslashChar := fun e => h (Or.inr e)
      simp [escapeChars, h, readChars_plain h1 h2, readChars_escapeChars cs (ch :: acc) rest]

theorem expectChars_append : ∀ (lit rest : List Char), expectChars lit (lit ++ rest) = some rest
  | [], rest => by simp [expectChars]
  | l :: lit, rest => by simp [expectChars, expectChars_append lit rest]

theorem readField_write (lead value : String) (rest : List Char) :
    readField lead (lead.data ++ (escapeChars value.data ++ quoteChar :: rest))
      = some (value, rest) := by
  simp [readField, String.toList, expectChars_append, readChars_escapeChars]

theorem writeField_data (lead value : String) :
    (writeField lead value).data = lead.data ++ (escapeChars value.data ++ [quoteChar]) := by
  simp [writeField, String.toList, String.data_append]
  rfl

theorem jsonFields_marshal (r : PersonData) (b : Bytes) (h : jsonMarshal r = .ok b) :
    jsonFields b.data = some r := by
  simp only [jsonMarshal, Except.ok.injEq] at h
  subst h
  unfold jsonFields
  generalize "\x7b\"PassportNumber\":\"" = l1
  generalize ",\"Name\":\"" = l2
  generalize ",\"LastName\":\"" = l3
  generalize ",\"City\":\"" = l4
  generalize ",\"ResidentialAddress\":\"" = l5
  generalize ",\"PhoneNumber\":\"" = l6
  generalize ",\"FamilyStatus\":\"" = l7
  generalize "\x7d" = l8
  simp only [String.data_append, writeField_data, List.append_assoc, List.singleton_append,
    List.cons_append, List.nil_append, readField_write]
  simp [String.toList]

theorem jsonCodec_faithful : jsonCodec.Faithful := by
  intro r b h
  have hf := jsonFields_marshal r b h
  simp [jsonCodec, jsonUnmarshal, String.toList, hf]

theorem jsonError_text (err : JsonError) : IsJsonErrorText err.text := by
  cases err with
  | atChar c context =>
    exact Or.inr (Or.inl ⟨quoteByte c ++ " " ++ context, by simp [JsonError.text, String.append_assoc]⟩)
  | endOfInput => exact Or.inl rfl
  | mismatch value field =>
    cases field with
    | none =>
      exact Or.inr (Or.inr ⟨"cannot unmarshal " ++ value
        ++ " into Go value of type chaincode.PersonData", by
          simp only [JsonError.text, ← String.append_assoc]; rfl⟩)
    | some f =>
      exact Or.inr (Or.inr ⟨"cannot unmarshal " ++ value ++ " into Go struct field PersonData."
        ++ f ++ " of type string", by
          simp only [JsonError.text, ← String.append_assoc]; rfl⟩)

theorem goCodec_error_text (v : Bytes) (e : String) (h : goCodec.unmarshal v = .error e) :
    IsJsonErrorText e := by
  simp only [goCodec] at h
  cases hu : goUnmarshal (utf8 v) with
  | ok r => rw [hu] at h; cases h
  | error err =>
    rw [hu] at h
    cases h
    exact jsonError_text err

theorem jsonErrorText_ne_doesNotExist {e : String} (h : IsJsonErrorText e) (k : String) :
    e ≠ doesNotExistMsg k := by
  intro heq
  have hd := congrArg String.data heq
  rcases h with rfl | ⟨t, rfl⟩ | ⟨t, rfl⟩ <;>
    simp [doesNotExistMsg, String.data_append] at hd

/-! ## How the calls change the backend -/

theorem datas_eq : datas = [firstData, secondData] := rfl

theorem create_cases (c : Codec) (k : String) (p : Payload) (s : Stub) :
    ((create c k p s).2 = s ∧ (create c k p s).1 ≠ .ok ()) ∨
      ∃ b, c.marshal (p.record k) = .ok b ∧ s.world k = none ∧
        create c k p s = (.ok (), s.written k b) := by
  unfold create CreatePersonData PersonDataExists Stub.GetState Stub.PutState Payload.record
  cases hg : s.getStateErr k with
  | some err => simp
  | none =>
    cases hw : s.world k with
    | some v => simp
    | none =>
      cases hm : c.marshal
          { PassportNumber := k, Name := p.name, LastName := p.lastName, City := p.city,
            ResidentialAddress := p.residentialAddress, PhoneNumber := p.phoneNumber,
            FamilyStatus := p.familyStatus } with
      | error err => simp [hm]
      | ok b =>
        cases hp : s.putStateErr k with
        | some err => simp [hm, hp]
        | none => simp [hm, hp]

theorem update_cases (c : Codec) (k : String) (p : Payload) (s : Stub) :
    ((update c k p s).2 = s ∧ (update c k p s).1 ≠ .ok ()) ∨
      ∃ b, c.marshal (p.record k) = .ok b ∧ s.world k ≠ none ∧
        update c k p s = (.ok (), s.written k b) := by
  unfold update UpdatePersonData PersonDataExists Stub.GetState Stub.PutState Payload.record
  cases hg : s.getStateErr k with
  | some err => simp
  | none =>
    cases hw : s.world k with
    | none => simp
    | some v =>
      cases hm : c.marshal
          { PassportNumber := k, Name := p.name, LastName := p.lastName, City := p.city,
            ResidentialAddress := p.residentialAddress, PhoneNumber := p.phoneNumber,
            FamilyStatus := p.familyStatus } with
      | error err => simp [hm]
      | ok b =>
        cases hp : s.putStateErr k with
        | some err => simp [hm, hp]
        | none => simp [hm, hp]

theorem init_of_writes {c : Codec} {s : Stub} {b1 b2 : Bytes}
    (hm1 : c.marshal firstData = .ok b1) (hm2 : c.marshal secondData = .ok b2)
    (hp1 : s.putStateErr "1" = none) (hp2 : s.putStateErr "2" = none) :
    InitLedger c s = (.ok (), (s.written "1" b1).written "2" b2) := by
  have hp2' : (s.written "1" b1).putStateErr "2" = none := hp2
  simp only [firstData] at hm1
  simp only [secondData] at hm2
  simp [InitLedger, datas, initLoop, hm1, hm2, Stub.PutState, hp1, hp2']

theorem init_cases (c : Codec) (s : Stub) :
    (InitLedger c s).1 ≠ .ok () ∨
      ∃ b1 b2, c.marshal firstData = .ok b1 ∧ c.marshal secondData = .ok b2 ∧
        InitLedger c s = (.ok (), (s.written "1" b1).written "2" b2) := by
  cases hm1 : c.marshal firstData with
  | error err =>
    simp only [firstData] at hm1
    simp [InitLedger, datas, initLoop, hm1]
  | ok b1 =>
    cases hp1 : s.putStateErr "1" with
    | some err =>
      simp only [firstData] at hm1
      simp [InitLedger, datas, initLoop, hm1, Stub.PutState, hp1]
    | none =>
      cases hm2 : c.marshal secondData with
      | error err =>
        simp only [firstData] at hm1
        simp only [secondData] at hm2
        simp [InitLedger, datas, initLoop, hm1, hm2, Stub.PutState, hp1]
      | ok b2 =>
        cases hp2 : s.putStateErr "2" with
        | some err =>
          have hp2' : (s.written "1" b1).putStateErr "2" = some err := hp2
          simp only [firstData] at hm1
          simp only [secondData] at hm2
          simp [InitLedger, datas, initLoop, hm1, hm2, Stub.PutState, hp1, hp2']
        | none => exact Or.inr ⟨b1, b2, rfl, rfl, init_of_writes hm1 hm2 hp1 hp2⟩

theorem extends_refl (s : Stub) : s.Extends s :=
  ⟨rfl, rfl, rfl, rfl, fun _ => ⟨fun h => h, List.prefix_refl _⟩⟩

theorem extends_written (s : Stub) (k : String) (b : Bytes) : s.Extends (s.written k b) := by
  refine ⟨rfl, rfl, rfl, rfl, fun k' => ?_⟩
  by_cases h : k' = k
  · subst h
    simp [Stub.written]
  · simp [Stub.written, h]

theorem extends_trans {s1 s2 s3 : Stub} (h12 : s1.Extends s2) (h23 : s2.Extends s3) :
    s1.Extends s3 := by
  obtain ⟨a1, a2, a3, a4, a5⟩ := h12
  obtain ⟨b1, b2, b3, b4, b5⟩ := h23
  refine ⟨b1.trans a1, b2.trans a2, b3.trans a3, b4.trans a4, fun k => ?_⟩
  exact ⟨fun h => (b5 k).1 ((a5 k).1 h), List.IsPrefix.trans (a5 k).2 (b5 k).2⟩

theorem initLoop_extends (c : Codec) :
    ∀ (ds : List PersonData) (s : Stub), s.Extends (initLoop c ds s).2
  | [], s => extends_refl s
  | d :: ds, s => by
    cases hm : c.marshal d with
    | error err => simpa [initLoop, hm] using extends_refl s
    | ok b =>
      cases hp : s.putStateErr d.PassportNumber with
      | some err => simpa [initLoop, hm, Stub.PutState, hp] using extends_refl s
      | none =>
        have h := extends_trans (extends_written s d.PassportNumber b)
          (initLoop_extends c ds (s.written d.PassportNumber b))
        simpa [initLoop, hm, Stub.PutState, hp] using h

theorem run_extends (c : Codec) (call : Call) (s : Stub) : s.Extends (call.run c s).2 := by
  cases call with
  | initLedger => exact initLoop_extends c datas s
  | personDataExists k =>
    show s.Extends (PersonDataExists k s).2
    rw [exists_snd]
    exact extends_refl s
  | createPersonData k p =>
    show s.Extends (create c k p s).2
    rcases create_cases c k p s with ⟨h, _⟩ | ⟨b, _, _, h⟩
    · rw [h]
      exact extends_refl s
    · rw [h]
      exact extends_written s k b
  | readPersonData k =>
    show s.Extends (ReadPersonData c k s).2
    rw [read_snd]
    exact extends_refl s
  | updatePersonData k p =>
    show s.Extends (update c k p s).2
    rcases update_cases c k p s with ⟨h, _⟩ | ⟨b, _, _, h⟩
    · rw [h]
      exact extends_refl s
    · rw [h]
      exact extends_written s k b
  | personDataChanges k =>
    show s.Extends (PersonDataChanges c k s).2
    rw [changes_snd]
    exact extends_refl s

theorem keyInvariant_written {c : Codec} {s : Stub} {k : String} {b : Bytes} {r : PersonData}
    (hs : s.KeyInvariant c) (hu : c.unmarshal b = .ok r) (hk : r.PassportNumber = k) :
    (s.written k b).KeyInvariant c := by
  intro k' v hv
  by_cases h : k' = k
  · subst h
    simp only [Stub.written, if_true, Option.some.injEq, List.mem_append,
      List.mem_singleton] at hv
    rcases hv with hv | hv | hv
    · exact ⟨r, hv ▸ hu, hk⟩
    · exact hs k' v (Or.inr hv)
    · exact ⟨r, hv ▸ hu, hk⟩
  · simp only [Stub.written, if_neg h] at hv
    exact hs k' v hv

theorem coherent_written {c : Codec} {s : Stub} {b : Bytes} {r : PersonData}
    (hs : s.Coherent c) (k : String) (hu : c.unmarshal b = .ok r) :
    (s.written k b).Coherent c := by
  obtain ⟨hr, hread, hlast⟩ := hs
  refine ⟨written_responsive hr k b, fun k' v hv => ?_, fun k' b' hb' => ?_⟩
  · by_cases h : k' = k
    · subst h
      simp only [Stub.written, if_true, List.mem_append, List.mem_singleton] at hv
      rcases hv with hv | hv
      · exact hread k' v hv
      · exact ⟨r, hv ▸ hu⟩
    · simp only [Stub.written, if_neg h] at hv
      exact hread k' v hv
  · by_cases h : k' = k
    · subst h
      simp only [Stub.written, if_true, Option.some.injEq] at hb'
      subst hb'
      exact ⟨s.history k', by simp [Stub.written]⟩
    · simp only [Stub.written, if_neg h] at hb'
      simpa [Stub.written, h] using hlast k' b' hb'

theorem coherent_of_reachable {c : Codec} (hc : c.Faithful) {s : Stub} (h : Reachable c s) :
    s.Coherent c := by
  induction h with
  | empty =>
    exact ⟨emptyStub_responsive, fun _ _ hv => by simp [emptyStub] at hv,
      fun _ _ hb => by simp [emptyStub] at hb⟩
  | @initLedger s _ hok ih =>
    rcases init_cases c s with hne | ⟨b1, b2, hm1, hm2, heq⟩
    · exact absurd hok hne
    · rw [heq]
      exact coherent_written (coherent_written ih "1" (hc _ _ hm1)) "2" (hc _ _ hm2)
  | @create s k p _ hok ih =>
    rcases create_cases c k p s with ⟨_, hne⟩ | ⟨b, hm, _, heq⟩
    · exact absurd hok hne
    · rw [heq]
      exact coherent_written ih k (hc _ _ hm)
  | @update s k p _ hok ih =>
    rcases update_cases c k p s with ⟨_, hne⟩ | ⟨b, hm, _, heq⟩
    · exact absurd hok hne
    · rw [heq]
      exact coherent_written ih k (hc _ _ hm)

theorem reads_of_forall (c : Codec) :
    ∀ (vs : List Bytes), (∀ v ∈ vs, ∃ r, c.unmarshal v = .ok r) →
      ∃ rs, List.Forall₂ c.Reads vs rs
  | [], _ => ⟨[], List.Forall₂.nil⟩
  | v :: vs, h => by
    obtain ⟨r, hr⟩ := h v (List.mem_cons_self _ _)
    obtain ⟨rs, hrs⟩ := reads_of_forall c vs (fun v' hv' => h v' (List.mem_cons_of_mem _ hv'))
    exact ⟨r :: rs, List.Forall₂.cons hr hrs⟩

theorem exists_true_iff {s : Stub} {k : String} :
    (PersonDataExists k s).1 = .ok true ↔ s.getStateErr k = none ∧ s.world k ≠ none := by
  unfold PersonDataExists Stub.GetState
  cases hg : s.getStateErr k with
  | some err => simp
  | none => cases hw : s.world k <;> simp

/-! ## The claims, continued -/

/-- C11: when the current value of `k` is present and does not deserialize,
`ReadPersonData(k)` returns the error of `json.Unmarshal`, unchanged, and no
record; since that error has one of the texts of `json.Unmarshal` (every error
of `goCodec` has, by `goCodec_error_text`), it is not the not-found error that
an absent key gives, for this key or any other. -/
theorem read_corrupt (c : Codec) (s : Stub) (k : String) (v : Bytes) (e : String)
    (hg : s.getStateErr k = none) (hw : s.world k = some v)
    (he : c.unmarshal v = .error e) (hjson : IsJsonErrorText e) :
    ReadPersonData c k s = (.error e, s) ∧
      (∀ k', (ReadPersonData c k s).1 ≠ .error (doesNotExistMsg k')) ∧
      (∀ r, (ReadPersonData c k s).1 ≠ .ok r) ∧
      ∀ s', s'.getStateErr k = none → s'.world k = none →
        (ReadPersonData c k s').1 = .error (doesNotExistMsg k) ∧
          (ReadPersonData c k s').1 ≠ (ReadPersonData c k s).1 := by
  have hrd : ReadPersonData c k s = (.error e, s) := by
    simp [ReadPersonData, Stub.GetState, hg, hw, he]
  rw [hrd]
  refine ⟨rfl, ?_, ?_, ?_⟩
  · intro k' h
    exact jsonErrorText_ne_doesNotExist hjson k' (Outcome.error.inj h)
  · intro r h
    cases h
  · intro s' hg' hw'
    rw [read_of_absent hg' hw']
    refine ⟨rfl, ?_⟩
    intro h
    exact jsonErrorText_ne_doesNotExist hjson k (Outcome.error.inj h).symm

/-- C11 on the backend whose value under "1" is the text `x`, with the codec
of `encoding/json`: the error is the syntax error of `json.Unmarshal`, the
absent key "1" gives the not-found error. -/
theorem read_corrupt_witness :
    ReadPersonData goCodec "1" corruptAt0
        = (.error "invalid character 'x' looking for beginning of value", corruptAt0) ∧
      (ReadPersonData goCodec "1" emptyStub).1
        = .error "the person with passport number 1 does not exist" :=
  have h := read_corrupt goCodec corruptAt0 "1" "x"
    "invalid character 'x' looking for beginning of value" rfl rfl rfl
    (goCodec_error_text "x" _ rfl)
  ⟨h.1, (h.2.2.2 emptyStub rfl rfl).1⟩

/-- C12 (key invariant): for a codec that reads back what it writes, the key
invariant holds of the empty backend and is preserved by every successful
`InitLedger`, `CreatePersonData` and `UpdatePersonData`, whatever the key and
the payload of the caller; the record written has `PassportNumber` equal to the
key. -/
theorem key_invariant (c : Codec) (hc : c.Faithful) :
    emptyStub.KeyInvariant c ∧
      ∀ s, s.KeyInvariant c →
        ((InitLedger c s).1 = .ok () → (InitLedger c s).2.KeyInvariant c) ∧
        (∀ k p, (create c k p s).1 = .ok () → (create c k p s).2.KeyInvariant c) ∧
        (∀ k p, (update c k p s).1 = .ok () → (update c k p s).2.KeyInvariant c) ∧
        ∀ (k : String) (p : Payload), (p.record k).PassportNumber = k := by
  refine ⟨?_, fun s hs => ⟨?_, ?_, ?_, fun _ _ => rfl⟩⟩
  · intro k v hv
    simp [emptyStub] at hv
  · intro hok
    rcases init_cases c s with hne | ⟨b1, b2, hm1, hm2, heq⟩
    · exact absurd hok hne
    · rw [heq]
      exact keyInvariant_written (keyInvariant_written hs (hc _ _ hm1) rfl) (hc _ _ hm2) rfl
  · intro k p hok
    rcases create_cases c k p s with ⟨_, hne⟩ | ⟨b, hm, _, heq⟩
    · exact absurd hok hne
    · rw [heq]
      exact keyInvariant_written hs (hc _ _ hm) rfl
  · intro k p hok
    rcases update_cases c k p s with ⟨_, hne⟩ | ⟨b, hm, _, heq⟩
    · exact absurd hok hne
    · rw [heq]
      exact keyInvariant_written hs (hc _ _ hm) rfl

/-- C12 for the JSON codec: the backend after `InitLedger` on the empty backend
satisfies the key invariant. -/
theorem key_invariant_witness : seededStub.KeyInvariant jsonCodec :=
  have h := key_invariant jsonCodec jsonCodec_faithful
  (h.2 emptyStub h.1).1 rfl

/-- C14 (no deletion): whatever the call and its arguments, a key for which
`PersonDataExists` is true before the call has `PersonDataExists` true after
it. -/
theorem no_deletion (c : Codec) (call : Call) (s : Stub) (k : String)
    (h : (PersonDataExists k s).1 = .ok true) :
    (PersonDataExists k (call.run c s).2).1 = .ok true := by
  obtain ⟨hg, hw⟩ := exists_true_iff.mp h
  obtain ⟨e1, _, _, _, e5⟩ := run_extends c call s
  exact exists_true_iff.mpr ⟨by rw [e1]; exact hg, (e5 k).1 hw⟩

/-- C14 at the key "1" of the seeded backend, for a second `InitLedger`. -/
theorem no_deletion_witness :
    (PersonDataExists "1" (Call.run jsonCodec .initLedger seededStub).2).1 = .ok true :=
  no_deletion jsonCodec .initLedger seededStub "1" rfl

/-- C15 (unguarded seeding): on every backend whose writes under "1" and "2"
succeed, empty or not, `InitLedger` succeeds without any lookup; it sets the
current values of "1" and "2" to its two fixed records, which
`ReadPersonData` then returns, and appends one version to the history of
each; `CreatePersonData` on a key that holds a value fails instead. -/
theorem initLedger_unguarded (c : Codec) (s : Stub) (b1 b2 : Bytes)
    (hm1 : c.marshal firstData = .ok b1) (hu1 : c.unmarshal b1 = .ok firstData)
    (hm2 : c.marshal secondData = .ok b2) (hu2 : c.unmarshal b2 = .ok secondData)
    (hp1 : s.putStateErr "1" = none) (hp2 : s.putStateErr "2" = none) :
    datas = [firstData, secondData] ∧ (InitLedger c s).1 = .ok () ∧
      (s.getStateErr "1" = none →
        (ReadPersonData c "1" (InitLedger c s).2).1 = .ok firstData) ∧
      (s.getStateErr "2" = none →
        (ReadPersonData c "2" (InitLedger c s).2).1 = .ok secondData) ∧
      (InitLedger c s).2.world "1" = some b1 ∧ (InitLedger c s).2.world "2" = some b2 ∧
      (InitLedger c s).2.history "1" = s.history "1" ++ [b1] ∧
      (InitLedger c s).2.history "2" = s.history "2" ++ [b2] ∧
      ∀ k v p, s.getStateErr k = none → s.world k = some v →
        create c k p s = (.error (alreadyExistsMsg k), s) := by
  have h12 : ("1" : String) ≠ "2" := by decide
  have h21 : ("2" : String) ≠ "1" := by decide
  have hw1 : ((s.written "1" b1).written "2" b2).world "1" = some b1 := by
    simp [Stub.written, h12]
  have hw2 : ((s.written "1" b1).written "2" b2).world "2" = some b2 := by
    simp [Stub.written]
  rw [init_of_writes hm1 hm2 hp1 hp2]
  refine ⟨rfl, rfl, ?_, ?_, hw1, hw2, ?_, ?_, ?_⟩
  · intro hg
    have hg' : ((s.written "1" b1).written "2" b2).getStateErr "1" = none := hg
    rw [read_of_present hg' hw1 hu1]
  · intro hg
    have hg' : ((s.written "1" b1).written "2" b2).getStateErr "2" = none := hg
    rw [read_of_present hg' hw2 hu2]
  · simp [Stub.written, h12]
  · simp [Stub.written, h21]
  · intro k v p hg hw
    exact create_of_present hg hw

/-- C15 on a backend that holds another record under "1": `InitLedger`
succeeds and `ReadPersonData("1")` returns its first fixed record. -/
theorem initLedger_unguarded_witness :
    (InitLedger jsonCodec occupiedStub).1 = .ok () ∧
      (ReadPersonData jsonCodec "1" occupiedStub).1 = .ok (payloadA.record "1") ∧
      (ReadPersonData jsonCodec "1" (InitLedger jsonCodec occupiedStub).2).1 = .ok firstData ∧
      ((InitLedger jsonCodec occupiedStub).2.history "1").length = 2 :=
  have h := initLedger_unguarded jsonCodec occupiedStub _ _ rfl rfl rfl rfl rfl rfl
  ⟨h.2.1, rfl, h.2.2.1 rfl, by rw [h.2.2.2.2.2.2.1]; rfl⟩

/-- C16 (reads have no effect): `PersonDataExists`, `ReadPersonData` and
`PersonDataChanges` leave the backend as it was, whatever they return, and
`PersonDataChanges` run again on the backend it left returns the same
result. -/
theorem reads_have_no_effect (c : Codec) (s : Stub) (k : String) :
    (PersonDataExists k s).2 = s ∧ (ReadPersonData c k s).2 = s ∧
      (PersonDataChanges c k s).2 = s ∧
      (PersonDataChanges c k (PersonDataChanges c k s).2).1 = (PersonDataChanges c k s).1 := by
  refine ⟨exists_snd k s, read_snd c k s, changes_snd c k s, ?_⟩
  rw [changes_snd]

/-- C17 (frame of writes): `CreatePersonData(k, p)` and `UpdatePersonData(k, p)`
leave the current value and the history of every key other than `k` as they
were, and a successful call appends exactly one version to the history of
`k`. -/
theorem writes_frame (c : Codec) (s : Stub) (k k' : String) (p : Payload) (hne : k' ≠ k) :
    ((create c k p s).2.world k' = s.world k' ∧
        (create c k p s).2.history k' = s.history k') ∧
      ((update c k p s).2.world k' = s.world k' ∧
        (update c k p s).2.history k' = s.history k') ∧
      ((create c k p s).1 = .ok () →
        ∃ b, (create c k p s).2.history k = s.history k ++ [b]) ∧
      ((update c k p s).1 = .ok () →
        ∃ b, (update c k p s).2.history k = s.history k ++ [b]) := by
  refine ⟨?_, ?_, ?_, ?_⟩
  · rcases create_cases c k p s with ⟨h, _⟩ | ⟨b, _, _, h⟩
    · rw [h]
      exact ⟨rfl, rfl⟩
    · rw [h]
      simp [Stub.written, hne]
  · rcases update_cases c k p s with ⟨h, _⟩ | ⟨b, _, _, h⟩
    · rw [h]
      exact ⟨rfl, rfl⟩
    · rw [h]
      simp [Stub.written, hne]
  · intro hok
    rcases create_cases c k p s with ⟨_, hn⟩ | ⟨b, _, _, h⟩
    · exact absurd hok hn
    · exact ⟨b, by rw [h]; exact written_history_self s k b⟩
  · intro hok
    rcases update_cases c k p s with ⟨_, hn⟩ | ⟨b, _, _, h⟩
    · exact absurd hok hn
    · exact ⟨b, by rw [h]; exact written_history_self s k b⟩

/-- C17 for a create of "3" on the seeded backend, seen from the key "1". -/
theorem writes_frame_witness :
    (create jsonCodec "3" payloadA seededStub).2.world "1" = seededStub.world "1" ∧
      (create jsonCodec "3" payloadA seededStub).2.history "1" = seededStub.history "1" :=
  (writes_frame jsonCodec seededStub "3" "1" payloadA (by decide)).1

/-- C18 (history and world state agree): for a codec that reads back what it
writes, in every backend reached from the empty backend by successful calls of
`InitLedger`, `CreatePersonData` and `UpdatePersonData`, for every key for which
`PersonDataExists` is true, `PersonDataChanges` returns a non-empty list whose
last element is the record that `ReadPersonData` returns. -/
theorem history_agrees_with_world (c : Codec) (hc : c.Faithful) (s : Stub)
    (hs : Reachable c s) (k : String) (hex : (PersonDataExists k s).1 = .ok true) :
    ∃ rs r, (PersonDataChanges c k s).1 = .ok rs ∧ rs ≠ [] ∧ rs.getLast? = some r ∧
      (ReadPersonData c k s).1 = .ok r := by
  obtain ⟨hr, hread, hlast⟩ := coherent_of_reachable hc hs
  obtain ⟨hg, hw⟩ := exists_true_iff.mp hex
  obtain ⟨b, hb⟩ := Option.ne_none_iff_exists'.mp hw
  obtain ⟨hs', hhist⟩ := hlast k b hb
  have hmem : b ∈ s.history k := by simp [hhist]
  obtain ⟨r, hr'⟩ := hread k b hmem
  obtain ⟨rs1, hrs1⟩ := reads_of_forall c hs'
    (fun v hv => hread k v (by simp [hhist, hv]))
  have hall : List.Forall₂ c.Reads (s.history k) (rs1 ++ [r]) := by
    rw [hhist]
    exact List.rel_append hrs1 (List.Forall₂.cons hr' List.Forall₂.nil)
  refine ⟨rs1 ++ [r], r, ?_, by simp, by simp, ?_⟩
  · rw [changes_of_present hg (hr.2.2.1 k) hb, historyItems_of_noErr (hr.2.2.2 k)]
    simpa using changesLoop_reads c _ _ [] hall
  · rw [read_of_present hg hb hr']

/-- C18 at the key "1" of the backend after `InitLedger` on the empty
backend. -/
theorem history_agrees_with_world_witness :
    ∃ rs r, (PersonDataChanges jsonCodec "1" seededStub).1 = .ok rs ∧ rs ≠ [] ∧
      rs.getLast? = some r ∧ (ReadPersonData jsonCodec "1" seededStub).1 = .ok r :=
  history_agrees_with_world jsonCodec jsonCodec_faithful seededStub
    (Reachable.initLedger Reachable.empty rfl) "1" rfl

/-! ## UTF-8 and the string encoder -/

theorem char_isScalar (ch : Char) : IsScalar ch.toNat :=
  ch.valid

theorem decodeRune_take (l : GoString) : decodeRune (l.take 4) = decodeRune l := by
  rcases l with _ | ⟨a, _ | ⟨b, _ | ⟨c, _ | ⟨d, l⟩⟩⟩⟩ <;> simp [decodeRune]

theorem decodeRune_encodeRune {n : Nat} (hn : IsScalar n) (h80 : 0x80 ≤ n) (rest : GoString) :
    decodeRune (encodeRune n ++ rest) = (n, (encodeRune n).length) := by
  unfold IsScalar at hn
  unfold encodeRune
  by_cases h1 : n < 0x800
  · have h0 : ¬ n < 0x80 := by omega
    simp only [h0, h1, if_true, if_false, List.cons_append, List.nil_append, decodeRune]
    have a1 : ¬ (0xC0 + n / 64 < 0x80) := by omega
    have a2 : ¬ (0xC0 + n / 64 < 0xC2 ∨ 0xF4 < 0xC0 + n / 64) := by omega
    have a3 : ¬ (0xC0 + n / 64 = 0xE0) := by omega
    have a4 : ¬ (0xC0 + n / 64 = 0xF0) := by omega
    have a5 : ¬ (0xC0 + n / 64 = 0xED) := by omega
    have a6 : ¬ (0xC0 + n / 64 = 0xF4) := by omega
    have a7 : ¬ (0x80 + n % 64 < 0x80 ∨ 0xBF < 0x80 + n % 64) := by omega
    have a8 : 0xC0 + n / 64 < 0xE0 := by omega
    simp only [a1, a2, a3, a4, a5, a6, a7, a8, if_true, if_false, List.length_cons,
      List.length_nil, Prod.mk.injEq, and_true]
    omega
  · have h0 : ¬ n < 0x80 := by omega
    have hs : ¬ ((0xD800 ≤ n ∧ n ≤ 0xDFFF) ∨ 0x10FFFF < n) := by omega
    by_cases h2 : n < 0x10000
    · simp only [h0, h1, hs, h2, if_true, if_false, List.cons_append, List.nil_append,
        decodeRune]
      have a1 : ¬ (0xE0 + n / 4096 < 0x80) := by omega
      have a2 : ¬ (0xE0 + n / 4096 < 0xC2 ∨ 0xF4 < 0xE0 + n / 4096) := by omega
      have a3 : ¬ (0x80 + n / 64 % 64 <
            (if 0xE0 + n / 4096 = 0xE0 then 0xA0
              else if 0xE0 + n / 4096 = 0xF0 then 0x90 else 0x80) ∨
          (if 0xE0 + n / 4096 = 0xED then 0x9F
              else if 0xE0 + n / 4096 = 0xF4 then 0x8F else 0xBF) < 0x80 + n / 64 % 64) := by
        split_ifs <;> omega
      have a4 : ¬ (0xE0 + n / 4096 < 0xE0) := by omega
      have a5 : ¬ (0x80 + n % 64 < 0x80 ∨ 0xBF < 0x80 + n % 64) := by omega
      have a6 : 0xE0 + n / 4096 < 0xF0 := by omega
      simp only [a1, a2, a3, a4, a5, a6, if_true, if_false, List.length_cons,
        List.length_nil, Prod.mk.injEq, and_true]
      omega
    · simp only [h0, h1, hs, h2, if_true, if_false, List.cons_append, List.nil_append,
        decodeRune]
      have a1 : ¬ (0xF0 + n / 262144 < 0x80) := by omega
      have a2 : ¬ (0xF0 + n / 262144 < 0xC2 ∨ 0xF4 < 0xF0 + n / 262144) := by omega
      have a3 : ¬ (0x80 + n / 4096 % 64 <
            (if 0xF0 + n / 262144 = 0xE0 then 0xA0
              else if 0xF0 + n / 262144 = 0xF0 then 0x90 else 0x80) ∨
          (if 0xF0 + n / 262144 = 0xED then 0x9F
              else if 0xF0 + n / 262144 = 0xF4 then 0x8F else 0xBF)
            < 0x80 + n / 4096 % 64) := by
        split_ifs <;> omega
      have a4 : ¬ (0xF0 + n / 262144 < 0xE0) := by omega
      have a5 : ¬ (0x80 + n / 64 % 64 < 0x80 ∨ 0xBF < 0x80 + n / 64 % 64) := by omega
      have a6 : ¬ (0xF0 + n / 262144 < 0xF0) := by omega
      have a7 : ¬ (0x80 + n % 64 < 0x80 ∨ 0xBF < 0x80 + n % 64) := by omega
      simp only [a1, a2, a3, a4, a5, a6, a7, if_true, if_false, List.length_cons,
        List.length_nil, Prod.mk.injEq, and_true]
      omega

theorem encodeRune_head {n : Nat} (h80 : 0x80 ≤ n) :
    ∃ b0 b1 tl, encodeRune n = b0 :: b1 :: tl ∧ 0x80 ≤ b0 := by
  unfold encodeRune
  have h0 : ¬ n < 0x80 := by omega
  simp only [h0, if_false]
  split_ifs
  · exact ⟨_, _, _, rfl, by omega⟩
  · exact ⟨_, _, _, rfl, by omega⟩
  · exact ⟨_, _, _, rfl, by omega⟩
  · exact ⟨_, _, _, rfl, by omega⟩

theorem encodeRune_length_pos (n : Nat) : 1 ≤ (encodeRune n).length := by
  unfold encodeRune
  split_ifs <;> simp

theorem appendStringLoop_rune {n : Nat} (hn : IsScalar n) (fuel : Nat) (rest : GoString) :
    appendStringLoop (fuel + 1) (encodeRune n ++ rest) = escRune n ++ appendStringLoop fuel rest := by
  by_cases h80 : n < 0x80
  · simp [encodeRune, escRune, h80, appendStringLoop]
  · have h80' : 0x80 ≤ n := by omega
    obtain ⟨b0, b1, tl, he, hb0⟩ := encodeRune_head h80'
    have hd := decodeRune_encodeRune hn h80' rest
    have hlen : (encodeRune n).length = tl.length + 2 := by rw [he]; simp
    have hb0' : ¬ b0 < 0x80 := by omega
    have hcons : encodeRune n ++ rest = b0 :: (b1 :: tl ++ rest) := by rw [he]; simp
    have hd' : decodeRune ((b0 :: (b1 :: tl ++ rest)).take 4) = (n, tl.length + 2) := by
      rw [decodeRune_take, ← hcons, hd, hlen]
    have hnerr : ¬ (n = runeError ∧ tl.length + 2 = 1) := by omega
    have htake : (b0 :: (b1 :: tl ++ rest)).take (tl.length + 2) = encodeRune n := by
      rw [he]
      simp
    have hdrop : (b0 :: (b1 :: tl ++ rest)).drop (tl.length + 2) = rest := by
      simp
    rw [hcons]
    simp only [appendStringLoop, hb0', if_false, hd', hnerr, htake, hdrop, escRune, h80]
    split_ifs <;> rfl

theorem appendStringLoop_text :
    ∀ (cs : List Char) (fuel : Nat), (utf8Chars cs).length ≤ fuel →
      appendStringLoop fuel (utf8Chars cs) = escText cs
  | [], fuel, _ => by cases fuel <;> simp [utf8Chars, appendStringLoop, escText]
  | ch :: cs, fuel, h => by
    have hpos := encodeRune_length_pos ch.toNat
    simp only [utf8Chars, List.length_append] at h
    obtain ⟨f, rfl⟩ : ∃ f, fuel = f + 1 := ⟨fuel - 1, by omega⟩
    rw [utf8Chars, appendStringLoop_rune (char_isScalar ch), escText,
      appendStringLoop_text cs f (by omega)]

theorem appendString_text (cs : List Char) :
    appendString (utf8Chars cs) = 34 :: (escText cs ++ [34]) := by
  simp [appendString, appendStringLoop_text cs _ (Nat.le_refl _)]

theorem unhex_hexDigit {d : Nat} (h : d < 16) : unhex (hexDigit d) = some d := by
  unfold unhex hexDigit
  split_ifs <;> first | omega | (simp only [Option.some.injEq]; omega)

theorem getu4_low {d1 d2 : Nat} (h1 : d1 < 16) (h2 : d2 < 16) (tail : List Nat) :
    getu4 (92 :: 117 :: 48 :: 48 :: hexDigit d1 :: hexDigit d2 :: tail) = some (d1 * 16 + d2) := by
  have h0 : unhex 48 = some 0 := by decide
  simp [getu4, h0, unhex_hexDigit h1, unhex_hexDigit h2]

theorem getu4_separator {d : Nat} (h : d < 16) (tail : List Nat) :
    getu4 (92 :: 117 :: 50 :: 48 :: 50 :: hexDigit d :: tail) = some (8224 + d) := by
  have h0 : unhex 48 = some 0 := by decide
  have h2 : unhex 50 = some 2 := by decide
  simp [getu4, h0, h2, unhex_hexDigit h]

theorem unquoteLoop_rune {n : Nat} (hn : IsScalar n) (fuel : Nat) (tail : List Nat)
    (acc : GoString) :
    unquoteLoop (fuel + 1) (escRune n ++ tail) acc
      = unquoteLoop fuel tail (acc ++ encodeRune n) := by
  by_cases h80 : n < 0x80
  · have henc : encodeRune n = [n] := by simp [encodeRune, h80]
    by_cases hsafe : htmlSafe n = true
    · have hs := hsafe
      simp only [htmlSafe, decide_eq_true_eq] at hs
      have c1 : ¬ n = 34 := by omega
      have c2 : ¬ n = 92 := by omega
      have c3 : ¬ n < 0x20 := by omega
      simp [escRune, h80, hsafe, unquoteLoop, c1, c2, c3, henc]
    · have hs := hsafe
      simp only [htmlSafe, decide_eq_true_eq] at hs
      simp only [escRune, h80, hsafe, if_true, escapeByte, henc]
      by_cases e1 : n = 92 ∨ n = 34
      · rcases e1 with rfl | rfl <;> simp [unquoteLoop, unescapeByte]
      · by_cases e2 : n = 8
        · subst e2
          simp [unquoteLoop, unescapeByte]
        · by_cases e3 : n = 12
          · subst e3
            simp [unquoteLoop, unescapeByte]
          · by_cases e4 : n = 10
            · subst e4
              simp [unquoteLoop, unescapeByte]
            · by_cases e5 : n = 13
              · subst e5
                simp [unquoteLoop, unescapeByte]
              · by_cases e6 : n = 9
                · subst e6
                  simp [unquoteLoop, unescapeByte]
                · have hg := @getu4_low (n / 16) (n % 16) (by omega) (by omega) tail
                  have hval : n / 16 * 16 + n % 16 = n := by omega
                  rw [hval] at hg
                  have hsur : ¬ (0xD800 ≤ n ∧ n < 0xE000) := by omega
                  simp [e1, e2, e3, e4, e5, e6, unquoteLoop, hg, hsur, henc]
  · have h80' : 0x80 ≤ n := by omega
    by_cases hsep : n = 0x2028 ∨ n = 0x2029
    · have hg := @getu4_separator (n % 16) (by omega) tail
      have hval : 8224 + n % 16 = n := by omega
      rw [hval] at hg
      have hsur : ¬ (0xD800 ≤ n ∧ n < 0xE000) := by omega
      simp [escRune, h80, hsep, unquoteLoop, hg, hsur]
    · obtain ⟨b0, b1, tl, he, hb0⟩ := encodeRune_head h80'
      have hd := decodeRune_encodeRune hn h80' tail
      have c1 : ¬ b0 = 34 := by omega
      have c2 : ¬ b0 = 92 := by omega
      have c3 : ¬ b0 < 0x20 := by omega
      have c4 : ¬ b0 < 0x80 := by omega
      have hcons : encodeRune n ++ tail = b0 :: (b1 :: tl ++ tail) := by rw [he]; simp
      rw [hcons] at hd
      have hlen : (encodeRune n).length = tl.length + 2 := by rw [he]; simp
      simp only [escRune, h80, hsep, if_false, hcons, unquoteLoop, c1, c2, c3, c4, hd, hlen]
      simp

theorem unquoteLoop_text :
    ∀ (cs : List Char) (fuel : Nat) (tail : List Nat) (acc : GoString), cs.length < fuel →
      unquoteLoop fuel (escText cs ++ 34 :: tail) acc = some (acc ++ utf8Chars cs, tail)
  | [], fuel, tail, acc, h => by
    obtain ⟨f, rfl⟩ : ∃ f, fuel = f + 1 := ⟨fuel - 1, by simp at h; omega⟩
    simp [escText, utf8Chars, unquoteLoop]
  | ch :: cs, fuel, tail, acc, h => by
    obtain ⟨f, rfl⟩ : ∃ f, fuel = f + 1 := ⟨fuel - 1, by simp at h; omega⟩
    have hlt : cs.length < f := by simp at h; omega
    rw [escText, List.append_assoc, unquoteLoop_rune (char_isScalar ch),
      unquoteLoop_text cs f tail _ hlt, utf8Chars, List.append_assoc]

theorem escRune_length_pos (n : Nat) : 1 ≤ (escRune n).length := by
  unfold escRune escapeByte
  have := encodeRune_length_pos n
  split_ifs <;> first | (simp; done) | (simp; omega)

theorem escText_length : ∀ (cs : List Char), cs.length ≤ (escText cs).length
  | [] => by simp [escText]
  | ch :: cs => by
    have h1 := escRune_length_pos ch.toNat
    have h2 := escText_length cs
    simp only [escText, List.length_cons, List.length_append]
    omega

theorem utf8Chars_append (a b : List Char) :
    utf8Chars (a ++ b) = utf8Chars a ++ utf8Chars b := by
  induction a with
  | nil => rfl
  | cons ch a ih => simp [utf8Chars, ih]

theorem decodeRune_char (ch : Char) (rest : GoString) :
    decodeRune (encodeRune ch.toNat ++ rest) = (ch.toNat, (encodeRune ch.toNat).length) := by
  by_cases h80 : ch.toNat < 0x80
  · simp [encodeRune, h80, decodeRune]
  · exact decodeRune_encodeRune (char_isScalar ch) (by omega) rest

theorem runesLoop_text :
    ∀ (cs : List Char) (fuel : Nat), (utf8Chars cs).length ≤ fuel →
      runesLoop fuel (utf8Chars cs) = cs
  | [], fuel, _ => by cases fuel <;> simp [utf8Chars, runesLoop]
  | ch :: cs, fuel, h => by
    have hpos := encodeRune_length_pos ch.toNat
    simp only [utf8Chars, List.length_append] at h
    obtain ⟨f, rfl⟩ : ∃ f, fuel = f + 1 := ⟨fuel - 1, by omega⟩
    obtain ⟨b, tl, hb⟩ : ∃ b tl, encodeRune ch.toNat = b :: tl := by
      cases he : encodeRune ch.toNat with
      | nil => rw [he] at hpos; simp at hpos
      | cons b tl => exact ⟨b, tl, rfl⟩
    have hdec := decodeRune_char ch (utf8Chars cs)
    have hstep : runesLoop (f + 1) (encodeRune ch.toNat ++ utf8Chars cs)
        = Char.ofNat (decodeRune (encodeRune ch.toNat ++ utf8Chars cs)).1 ::
          runesLoop f ((encodeRune ch.toNat ++ utf8Chars cs).drop
            (decodeRune (encodeRune ch.toNat ++ utf8Chars cs)).2) := by
      rw [hb]
      rfl
    rw [utf8Chars, hstep, hdec]
    simp only [List.drop_left]
    rw [runesLoop_text cs f (by omega)]
    simp [Char.ofNat_toNat]

theorem textOf_utf8 (s : String) : textOf (utf8 s) = s := by
  simp [textOf, utf8, runesLoop_text s.data _ (Nat.le_refl _)]

theorem toText_toRaw (r : PersonData) : r.toRaw.toText = r := by
  simp [PersonData.toRaw, PersonDataRaw.toText, textOf_utf8]

theorem toNat_ofNat_scalar {n : Nat} (h : IsScalar n) : (Char.ofNat n).toNat = n := by
  have hv : n.isValidChar := h
  simp [Char.ofNat, hv, Char.toNat, Char.ofNatAux, UInt32.toNat]

theorem decodeRune_valid (b : Nat) (rest : GoString) (h80 : 0x80 ≤ b)
    (hv : ¬ ((decodeRune (b :: rest)).1 = runeError ∧ (decodeRune (b :: rest)).2 = 1)) :
    IsScalar (decodeRune (b :: rest)).1 ∧ 0x80 ≤ (decodeRune (b :: rest)).1 ∧
      (b :: rest).take (decodeRune (b :: rest)).2 = encodeRune (decodeRune (b :: rest)).1 := by
  have h0 : ¬ b < 0x80 := by omega
  by_cases hr : b < 0xC2 ∨ 0xF4 < b
  · exact absurd (by simp [decodeRune, h0, hr]) hv
  cases rest with
  | nil => exact absurd (by simp [decodeRune, h0, hr]) hv
  | cons s1 rest1 =>
    by_cases h1 : s1 < (if b = 0xE0 then 0xA0 else if b = 0xF0 then 0x90 else 0x80) ∨
        (if b = 0xED then 0x9F else if b = 0xF4 then 0x8F else 0xBF) < s1
    · exact absurd (by simp [decodeRune, h0, hr, h1]) hv
    by_cases h2 : b < 0xE0
    · have e1 : ¬ b = 0xE0 := by omega
      have e2 : ¬ b = 0xF0 := by omega
      have e3 : ¬ b = 0xED := by omega
      have e4 : ¬ b = 0xF4 := by omega
      have hs1 : 0x80 ≤ s1 ∧ s1 ≤ 0xBF := by
        simp only [e1, e2, e3, e4, if_false] at h1
        omega
      have hd : decodeRune (b :: s1 :: rest1) = ((b % 32) * 64 + s1 % 64, 2) := by
        simp only [decodeRune, h0, hr, h1, h2, if_true, if_false]
      rw [hd]
      have n1 : ¬ (b % 32) * 64 + s1 % 64 < 0x80 := by omega
      have n2 : (b % 32) * 64 + s1 % 64 < 0x800 := by omega
      refine ⟨Or.inl (by omega), by omega, ?_⟩
      simp only [encodeRune, n1, n2, if_true, if_false, List.take_succ_cons, List.take_zero,
        List.cons.injEq, and_true]
      omega
    have h2' : ¬ b < 0xE0 := h2
    cases rest1 with
    | nil => exact absurd (by simp [decodeRune, h0, hr, h1, h2]) hv
    | cons s2 rest2 =>
      by_cases h3 : s2 < 0x80 ∨ 0xBF < s2
      · exact absurd (by simp [decodeRune, h0, hr, h1, h2, h3]) hv
      by_cases h4 : b < 0xF0
      · have e2 : ¬ b = 0xF0 := by omega
        have e4 : ¬ b = 0xF4 := by omega
        have hs1 : 0x80 ≤ s1 ∧ s1 ≤ 0xBF ∧ (b = 0xE0 → 0xA0 ≤ s1) ∧ (b = 0xED → s1 ≤ 0x9F) := by
          simp only [e2, e4, if_false] at h1
          split_ifs at h1 <;> omega
        have hd : decodeRune (b :: s1 :: s2 :: rest2)
            = ((b % 16) * 4096 + (s1 % 64) * 64 + s2 % 64, 3) := by
          simp only [decodeRune, h0, hr, h1, h2, h3, h4, if_true, if_false]
        rw [hd]
        have n1 : ¬ (b % 16) * 4096 + (s1 % 64) * 64 + s2 % 64 < 0x80 := by omega
        have n2 : ¬ (b % 16) * 4096 + (s1 % 64) * 64 + s2 % 64 < 0x800 := by omega
        have n3 : ¬ ((0xD800 ≤ (b % 16) * 4096 + (s1 % 64) * 64 + s2 % 64 ∧
            (b % 16) * 4096 + (s1 % 64) * 64 + s2 % 64 ≤ 0xDFFF) ∨
            0x10FFFF < (b % 16) * 4096 + (s1 % 64) * 64 + s2 % 64) := by omega
        have n4 : (b % 16) * 4096 + (s1 % 64) * 64 + s2 % 64 < 0x10000 := by omega
        refine ⟨by unfold IsScalar; omega, by omega, ?_⟩
        simp only [encodeRune, n1, n2, n3, n4, if_true, if_false, List.take_succ_cons,
          List.take_zero, List.cons.injEq, and_true]
        omega
      cases rest2 with
      | nil => exact absurd (by simp [decodeRune, h0, hr, h1, h2, h3, h4]) hv
      | cons s3 rest3 =>
        by_cases h5 : s3 < 0x80 ∨ 0xBF < s3
        · exact absurd (by simp [decodeRune, h0, hr, h1, h2, h3, h4, h5]) hv
        have e1 : ¬ b = 0xE0 := by omega
        have e3 : ¬ b = 0xED := by omega
        have hs1 : 0x80 ≤ s1 ∧ s1 ≤ 0xBF ∧ (b = 0xF0 → 0x90 ≤ s1) ∧ (b = 0xF4 → s1 ≤ 0x8F) := by
          simp only [e1, e3, if_false] at h1
          split_ifs at h1 <;> omega
        have hd : decodeRune (b :: s1 :: s2 :: s3 :: rest3)
            = ((b % 8) * 262144 + (s1 % 64) * 4096 + (s2 % 64) * 64 + s3 % 64, 4) := by
          simp only [decodeRune, h0, hr, h1, h2, h3, h4, h5, if_true, if_false]
        rw [hd]
        have n1 : ¬ (b % 8) * 262144 + (s1 % 64) * 4096 + (s2 % 64) * 64 + s3 % 64 < 0x80 := by
          omega
        have n2 : ¬ (b % 8) * 262144 + (s1 % 64) * 4096 + (s2 % 64) * 64 + s3 % 64 < 0x800 := by
          omega
        have n3 : ¬ ((0xD800 ≤ (b % 8) * 262144 + (s1 % 64) * 4096 + (s2 % 64) * 64 + s3 % 64 ∧
            (b % 8) * 262144 + (s1 % 64) * 4096 + (s2 % 64) * 64 + s3 % 64 ≤ 0xDFFF) ∨
            0x10FFFF < (b % 8) * 262144 + (s1 % 64) * 4096 + (s2 % 64) * 64 + s3 % 64) := by
          omega
        have n4 : ¬ (b % 8) * 262144 + (s1 % 64) * 4096 + (s2 % 64) * 64 + s3 % 64 < 0x10000 := by
          omega
        refine ⟨by unfold IsScalar; omega, by omega, ?_⟩
        simp only [encodeRune, n1, n2, n3, n4, if_true, if_false, List.take_succ_cons,
          List.take_zero, List.cons.injEq, and_true]
        omega

theorem loops_step (fuel b : Nat) (rest : GoString) :
    ∃ piece n rest',
      appendStringLoop (fuel + 1) (b :: rest) = piece ++ appendStringLoop fuel rest' ∧
      runesLoop (fuel + 1) (b :: rest) = Char.ofNat n :: runesLoop fuel rest' ∧
      IsScalar n ∧
      (piece = escRune n ∨ (piece = [92, 117, 102, 102, 102, 100] ∧ n = runeError)) := by
  have hrunes : runesLoop (fuel + 1) (b :: rest)
      = Char.ofNat (decodeRune (b :: rest)).1 ::
        runesLoop fuel ((b :: rest).drop (decodeRune (b :: rest)).2) := rfl
  by_cases h80 : b < 0x80
  · have hd : decodeRune (b :: rest) = (b, 1) := by simp [decodeRune, h80]
    refine ⟨escRune b, b, rest, ?_, ?_, Or.inl (by omega), Or.inl rfl⟩
    · simp [appendStringLoop, h80, escRune]
    · rw [hrunes, hd]
      rfl
  · have h80' : 0x80 ≤ b := by omega
    have happ : appendStringLoop (fuel + 1) (b :: rest)
        = if (decodeRune (b :: rest)).1 = runeError ∧ (decodeRune (b :: rest)).2 = 1 then
            [92, 117, 102, 102, 102, 100] ++ appendStringLoop fuel rest
          else if (decodeRune (b :: rest)).1 = 0x2028 ∨ (decodeRune (b :: rest)).1 = 0x2029 then
            [92, 117, 50, 48, 50, hexDigit ((decodeRune (b :: rest)).1 % 16)] ++
              appendStringLoop fuel ((b :: rest).drop (decodeRune (b :: rest)).2)
          else
            (b :: rest).take (decodeRune (b :: rest)).2 ++
              appendStringLoop fuel ((b :: rest).drop (decodeRune (b :: rest)).2) := by
      rw [appendStringLoop, decodeRune_take]
      simp only [h80, if_false]
    by_cases hinv : (decodeRune (b :: rest)).1 = runeError ∧ (decodeRune (b :: rest)).2 = 1
    · refine ⟨[92, 117, 102, 102, 102, 100], runeError, rest, ?_, ?_,
        Or.inr (by unfold runeError; omega), Or.inr ⟨rfl, rfl⟩⟩
      · rw [happ, if_pos hinv]
      · rw [hrunes, hinv.1, hinv.2]
        rfl
    · obtain ⟨hsc, hge, htake⟩ := decodeRune_valid b rest h80' hinv
      have hn80 : ¬ (decodeRune (b :: rest)).1 < 0x80 := by omega
      refine ⟨escRune (decodeRune (b :: rest)).1, (decodeRune (b :: rest)).1,
        (b :: rest).drop (decodeRune (b :: rest)).2, ?_, hrunes, hsc, Or.inl rfl⟩
      rw [happ, if_neg hinv]
      by_cases hsep : (decodeRune (b :: rest)).1 = 0x2028 ∨ (decodeRune (b :: rest)).1 = 0x2029
      · simp only [hsep, if_true, escRune, hn80, if_false]
      · simp only [hsep, if_false, escRune, hn80, htake]

theorem piece_length_pos {piece : List Nat} {n : Nat}
    (h : piece = escRune n ∨ (piece = [92, 117, 102, 102, 102, 100] ∧ n = runeError)) :
    1 ≤ piece.length := by
  rcases h with rfl | ⟨rfl, _⟩
  · exact escRune_length_pos n
  · simp

theorem unquoteLoop_piece {piece : List Nat} {n : Nat} (hn : IsScalar n)
    (h : piece = escRune n ∨ (piece = [92, 117, 102, 102, 102, 100] ∧ n = runeError))
    (fuel : Nat) (tail : List Nat) (acc : GoString) :
    unquoteLoop (fuel + 1) (piece ++ tail) acc = unquoteLoop fuel tail (acc ++ encodeRune n) := by
  rcases h with rfl | ⟨rfl, rfl⟩
  · exact unquoteLoop_rune hn fuel tail acc
  · have hg : getu4 (92 :: 117 :: 102 :: 102 :: 102 :: 100 :: tail) = some 0xFFFD := by
      simp [getu4, unhex]
    simp [unquoteLoop, hg, runeError]

theorem unquoteLoop_appendStringLoop :
    ∀ (fuel : Nat) (src : GoString) (fuel' : Nat) (tail : List Nat) (acc : GoString),
      (appendStringLoop fuel src).length < fuel' →
      unquoteLoop fuel' (appendStringLoop fuel src ++ 34 :: tail) acc
        = some (acc ++ utf8Chars (runesLoop fuel src), tail)
  | 0, _, fuel', tail, acc, h => by
    obtain ⟨f, rfl⟩ : ∃ f, fuel' = f + 1 := ⟨fuel' - 1, by omega⟩
    simp [appendStringLoop, runesLoop, utf8Chars, unquoteLoop]
  | _ + 1, [], fuel', tail, acc, h => by
    obtain ⟨f, rfl⟩ : ∃ f, fuel' = f + 1 := ⟨fuel' - 1, by omega⟩
    simp [appendStringLoop, runesLoop, utf8Chars, unquoteLoop]
  | fuel + 1, b :: rest, fuel', tail, acc, h => by
    obtain ⟨piece, n, rest', happ, hrunes, hn, hp⟩ := loops_step fuel b rest
    have hpos := piece_length_pos hp
    rw [happ, List.length_append] at h
    obtain ⟨f, rfl⟩ : ∃ f, fuel' = f + 1 := ⟨fuel' - 1, by omega⟩
    rw [happ, hrunes, List.append_assoc, unquoteLoop_piece hn hp,
      unquoteLoop_appendStringLoop fuel rest' f tail _ (by omega), utf8Chars,
      toNat_ofNat_scalar hn, List.append_assoc]

/-! ## The scanner accepts what the encoder writes -/

theorem scanBytes_append :
    ∀ (a b : List Nat) (s s1 : Scanner), scanBytes s a = .ok s1 →
      scanBytes s (a ++ b) = scanBytes s1 b
  | [], b, s, s1, h => by
    simp only [scanBytes, Except.ok.injEq] at h
    rw [h]
    rfl
  | c :: a, b, s, s1, h => by
    simp only [scanBytes, List.cons_append] at h ⊢
    cases hr : s.run c with
    | error err => simp [hr] at h
    | ok s2 =>
      simp only [hr] at h ⊢
      exact scanBytes_append a b s2 s1 h

theorem encodeRune_high {n : Nat} (h80 : 0x80 ≤ n) : ∀ b ∈ encodeRune n, 0x80 ≤ b := by
  unfold encodeRune
  have h0 : ¬ n < 0x80 := by omega
  simp only [h0, if_false]
  split_ifs <;> simp <;> omega

theorem scanBytes_high (st : List ParseState) (et : Bool) :
    ∀ (bs : List Nat), (∀ b ∈ bs, 0x80 ≤ b) →
      scanBytes { step := .inString, parseState := st, endTop := et } bs
        = .ok { step := .inString, parseState := st, endTop := et }
  | [], _ => rfl
  | b :: bs, h => by
    have hb := h b (List.mem_cons_self _ _)
    have c1 : ¬ b = 34 := by omega
    have c2 : ¬ b = 92 := by omega
    have c3 : ¬ b < 0x20 := by omega
    simp only [scanBytes, Scanner.run, stateInString, c1, c2, c3, if_false]
    exact scanBytes_high st et bs (fun b' hb' => h b' (List.mem_cons_of_mem _ hb'))

theorem isHex_hexDigit {d : Nat} (h : d < 16) : isHex (hexDigit d) = true := by
  unfold isHex hexDigit
  simp only [decide_eq_true_eq]
  split_ifs <;> omega

theorem scanBytes_escRune (st : List ParseState) (et : Bool) {n : Nat} (hn : IsScalar n) :
    scanBytes { step := .inString, parseState := st, endTop := et } (escRune n)
      = .ok { step := .inString, parseState := st, endTop := et } := by
  by_cases h80 : n < 0x80
  · by_cases hsafe : htmlSafe n = true
    · have hs := hsafe
      simp only [htmlSafe, decide_eq_true_eq] at hs
      have c1 : ¬ n = 34 := by omega
      have c2 : ¬ n = 92 := by omega
      have c3 : ¬ n < 0x20 := by omega
      simp [escRune, h80, hsafe, scanBytes, Scanner.run, stateInString, c1, c2, c3]
    · have hfalse : htmlSafe n = false := by simpa using hsafe
      have hx1 := @isHex_hexDigit (n / 16) (by omega)
      have hx2 := @isHex_hexDigit (n % 16) (by omega)
      have h48 : isHex 48 = true := by decide
      simp only [escRune, h80, hfalse, if_true, escapeByte]
      by_cases e1 : n = 92 ∨ n = 34
      · rcases e1 with rfl | rfl <;>
          simp [scanBytes, Scanner.run, stateInString, stateInStringEsc]
      · by_cases e2 : n = 8
        · subst e2
          simp [scanBytes, Scanner.run, stateInString, stateInStringEsc]
        · by_cases e3 : n = 12
          · subst e3
            simp [scanBytes, Scanner.run, stateInString, stateInStringEsc]
          · by_cases e4 : n = 10
            · subst e4
              simp [scanBytes, Scanner.run, stateInString, stateInStringEsc]
            · by_cases e5 : n = 13
              · subst e5
                simp [scanBytes, Scanner.run, stateInString, stateInStringEsc]
              · by_cases e6 : n = 9
                · subst e6
                  simp [scanBytes, Scanner.run, stateInString, stateInStringEsc]
                · simp [e1, e2, e3, e4, e5, e6, scanBytes, Scanner.run, stateInString,
                    stateInStringEsc, stateInStringEscU, h48, hx1, hx2]
  · have h80' : 0x80 ≤ n := by omega
    by_cases hsep : n = 0x2028 ∨ n = 0x2029
    · have h48 : isHex 48 = true := by decide
      have h50 : isHex 50 = true := by decide
      have hx := @isHex_hexDigit (n % 16) (by omega)
      simp [escRune, h80, hsep, scanBytes, Scanner.run, stateInString, stateInStringEsc,
        stateInStringEscU, h48, h50, hx]
    · simp only [escRune, h80, hsep, if_false]
      exact scanBytes_high st et _ (encodeRune_high h80')

theorem scanBytes_escText (st : List ParseState) (et : Bool) :
    ∀ (cs : List Char),
      scanBytes { step := .inString, parseState := st, endTop := et } (escText cs)
        = .ok { step := .inString, parseState := st, endTop := et }
  | [] => rfl
  | ch :: cs => by
    rw [escText, scanBytes_append _ _ _ _ (scanBytes_escRune st et (char_isScalar ch))]
    exact scanBytes_escText st et cs

theorem scanBytes_cons {s s1 : Scanner} {c : Nat} (h : s.run c = .ok s1) (rest : List Nat) :
    scanBytes s (c :: rest) = scanBytes s1 rest := by
  simp [scanBytes, h]

theorem scanBytes_piece (st : List ParseState) (et : Bool) {piece : List Nat} {n : Nat}
    (hn : IsScalar n)
    (h : piece = escRune n ∨ (piece = [92, 117, 102, 102, 102, 100] ∧ n = runeError)) :
    scanBytes { step := .inString, parseState := st, endTop := et } piece
      = .ok { step := .inString, parseState := st, endTop := et } := by
  rcases h with rfl | ⟨rfl, _⟩
  · exact scanBytes_escRune st et hn
  · simp [scanBytes, Scanner.run, stateInString, stateInStringEsc, stateInStringEscU, isHex]

theorem scanBytes_appendStringLoop (st : List ParseState) (et : Bool) :
    ∀ (fuel : Nat) (src : GoString),
      scanBytes { step := .inString, parseState := st, endTop := et } (appendStringLoop fuel src)
        = .ok { step := .inString, parseState := st, endTop := et }
  | 0, _ => rfl
  | _ + 1, [] => rfl
  | fuel + 1, b :: rest => by
    obtain ⟨piece, n, rest', happ, _, hn, hp⟩ := loops_step fuel b rest
    rw [happ, scanBytes_append _ _ _ _ (scanBytes_piece st et hn hp)]
    exact scanBytes_appendStringLoop st et fuel rest'

theorem scanBytes_member (σ : ScanStep) (hσ : σ = .beginStringOrEmpty ∨ σ = .beginString)
    (st : List ParseState) (kc : List Char) (v : GoString) (tail : List Nat) :
    scanBytes { step := σ, parseState := .parseObjectKey :: st, endTop := false }
        (34 :: escText kc ++ [34, 58] ++ appendString v ++ tail)
      = scanBytes { step := .endValue, parseState := .parseObjectValue :: st, endTop := false }
          tail := by
  have hlist : 34 :: escText kc ++ [34, 58] ++ appendString v ++ tail
      = 34 :: (escText kc ++ (34 :: 58 :: 34 :: (appendStringLoop v.length v ++ (34 :: tail)))) := by
    simp [appendString]
  have h1 : Scanner.run { step := σ, parseState := .parseObjectKey :: st, endTop := false } 34
      = .ok { step := .inString, parseState := .parseObjectKey :: st, endTop := false } := by
    rcases hσ with rfl | rfl <;>
      simp [Scanner.run, stateBeginStringOrEmpty, stateBeginString, isSpace]
  have h2 : Scanner.run
      { step := .inString, parseState := .parseObjectKey :: st, endTop := false } 34
      = .ok { step := .endValue, parseState := .parseObjectKey :: st, endTop := false } := by
    simp [Scanner.run, stateInString]
  have h3 : Scanner.run
      { step := .endValue, parseState := .parseObjectKey :: st, endTop := false } 58
      = .ok { step := .beginValue, parseState := .parseObjectValue :: st, endTop := false } := by
    simp [Scanner.run, stateEndValue, isSpace]
  have h4 : Scanner.run
      { step := .beginValue, parseState := .parseObjectValue :: st, endTop := false } 34
      = .ok { step := .inString, parseState := .parseObjectValue :: st, endTop := false } := by
    simp [Scanner.run, stateBeginValue, isSpace]
  have h5 : Scanner.run
      { step := .inString, parseState := .parseObjectValue :: st, endTop := false } 34
      = .ok { step := .endValue, parseState := .parseObjectValue :: st, endTop := false } := by
    simp [Scanner.run, stateInString]
  rw [hlist, scanBytes_cons h1, scanBytes_append _ _ _ _ (scanBytes_escText _ _ kc),
    scanBytes_cons h2, scanBytes_cons h3, scanBytes_cons h4,
    scanBytes_append _ _ _ _ (scanBytes_appendStringLoop _ _ v.length v), scanBytes_cons h5]

theorem scanBytes_members :
    ∀ (ms : List (List Char × GoString)) (σ : ScanStep),
      σ = .beginStringOrEmpty ∨ σ = .beginString → ms ≠ [] → ∀ lead : Nat,
      scanBytes { step := σ, parseState := [.parseObjectKey], endTop := false }
          (writeMembers lead (ms.map fun m => (escText m.1, m.2))).tail
        = .ok { step := .endTop, parseState := [], endTop := true }
  | [], _, _, h, _ => absurd rfl h
  | (kc, v) :: rest, σ, hσ, _, lead => by
    simp only [List.map_cons, writeMembers, List.cons_append, List.tail_cons]
    have hm := scanBytes_member σ hσ [] kc v
      (writeMembers 44 (rest.map fun m => (escText m.1, m.2)))
    simp only [List.cons_append] at hm
    rw [hm]
    cases rest with
    | nil =>
      simp [writeMembers, scanBytes, Scanner.run, stateEndValue, isSpace, popParseState]
    | cons m rest' =>
      have hcomma : Scanner.run
          { step := .endValue, parseState := [.parseObjectValue], endTop := false } 44
          = .ok { step := .beginString, parseState := [.parseObjectKey], endTop := false } := by
        simp [Scanner.run, stateEndValue, isSpace]
      have ih := scanBytes_members (m :: rest') .beginString (Or.inr rfl) (by simp) 44
      simp only [List.map_cons, writeMembers, List.cons_append, List.tail_cons] at ih
      simp only [List.map_cons, writeMembers, List.cons_append]
      rw [scanBytes_cons hcomma]
      exact ih

theorem checkValid_members (ms : List (List Char × GoString)) (h : ms ≠ []) :
    checkValid (writeMembers 123 (ms.map fun m => (escText m.1, m.2))) = none := by
  have hopen : Scanner.run { step := .beginValue, parseState := [], endTop := false } 123
      = .ok { step := .beginStringOrEmpty, parseState := [.parseObjectKey], endTop := false } := by
    simp [Scanner.run, stateBeginValue, isSpace, pushParseState, maxNestingDepth]
  have hm := scanBytes_members ms .beginStringOrEmpty (Or.inl rfl) h 123
  cases ms with
  | nil => exact absurd rfl h
  | cons m rest =>
    simp only [List.map_cons, writeMembers, List.cons_append, List.tail_cons] at hm
    simp only [checkValid, List.map_cons, writeMembers, List.cons_append]
    rw [scanBytes_cons hopen, hm]
    rfl

/-! ## The decoder reads what the encoder writes -/

theorem decodeMembers_member (fuel : Nat) (kc : List Char) (v : GoString) (tail : List Nat)
    (r : PersonDataRaw) (saved : Option JsonError) :
    decodeMembers (fuel + 1) (34 :: escText kc ++ [34, 58] ++ appendString v ++ tail) r saved
      = match skipSpace tail with
        | 44 :: rest4 =>
          decodeMembers fuel rest4
            (storeMember r (utf8Chars kc) (utf8Chars (runesLoop v.length v))) saved
        | 125 :: _ =>
          some (storeMember r (utf8Chars kc) (utf8Chars (runesLoop v.length v)), saved)
        | _ => none := by
  have hlist : 34 :: escText kc ++ [34, 58] ++ appendString v ++ tail
      = 34 :: (escText kc ++ 34 :: (58 :: 34 :: (appendStringLoop v.length v ++ 34 :: tail))) := by
    simp [appendString]
  have hk : unquoteLoop
      (escText kc ++ 34 :: (58 :: 34 :: (appendStringLoop v.length v ++ 34 :: tail))).length
      (escText kc ++ 34 :: (58 :: 34 :: (appendStringLoop v.length v ++ 34 :: tail))) []
      = some (utf8Chars kc, 58 :: 34 :: (appendStringLoop v.length v ++ 34 :: tail)) := by
    have := escText_length kc
    rw [unquoteLoop_text kc _ _ [] (by simp only [List.length_append, List.length_cons]; omega)]
    rfl
  have hv : unquoteLoop (appendStringLoop v.length v ++ 34 :: tail).length
      (appendStringLoop v.length v ++ 34 :: tail) []
      = some (utf8Chars (runesLoop v.length v), tail) := by
    rw [unquoteLoop_appendStringLoop v.length v _ tail []
      (by simp only [List.length_append, List.length_cons]; omega)]
    rfl
  have s34 : ∀ l, skipSpace (34 :: l) = 34 :: l := fun l => by simp [skipSpace, isSpace]
  have s58 : ∀ l, skipSpace (58 :: l) = 58 :: l := fun l => by simp [skipSpace, isSpace]
  rw [hlist]
  simp only [decodeMembers, s34, hk, s58, hv]

theorem decodeMembers_members :
    ∀ (ms : List (List Char × GoString)) (fuel lead : Nat) (r : PersonDataRaw)
      (saved : Option JsonError), ms ≠ [] → ms.length ≤ fuel →
      decodeMembers fuel (writeMembers lead (ms.map fun m => (escText m.1, m.2))).tail
          r saved
        = some (ms.foldl (fun r m => storeMember r (utf8Chars m.1) (utf8Chars (runesLoop m.2.length m.2))) r, saved)
  | [], _, _, _, _, h, _ => absurd rfl h
  | (kc, v) :: rest, fuel, lead, r, saved, _, hfuel => by
    obtain ⟨f, rfl⟩ : ∃ f, fuel = f + 1 := ⟨fuel - 1, by simp at hfuel; omega⟩
    have hf : rest.length ≤ f := by simp at hfuel; omega
    simp only [List.map_cons, writeMembers, List.cons_append, List.tail_cons]
    have hm := decodeMembers_member f kc v
      (writeMembers 44 (rest.map fun m => (escText m.1, m.2))) r saved
    simp only [List.cons_append] at hm
    rw [hm]
    cases rest with
    | nil => simp [writeMembers, skipSpace, isSpace]
    | cons m rest' =>
      have ih := decodeMembers_members (m :: rest') f 44
        (storeMember r (utf8Chars kc) (utf8Chars (runesLoop v.length v))) saved (by simp) hf
      simp only [List.map_cons, writeMembers, List.cons_append, List.tail_cons] at ih
      simp only [List.map_cons, writeMembers, List.cons_append, skipSpace, isSpace]
      simpa using ih

theorem writeMembers_length (lead : Nat) :
    ∀ (ms : List (GoString × GoString)), ms.length < (writeMembers lead ms).length
  | [] => by simp [writeMembers]
  | (k, v) :: rest => by
    have ih := writeMembers_length 44 rest
    simp only [writeMembers, List.length_cons, List.length_append]
    omega

theorem decodeValue_object (body : List Nat) (r : PersonDataRaw)
    (h : decodeMembers (34 :: body).length (34 :: body) zeroData none = some (r, none)) :
    decodeValue (123 :: 34 :: body) = some (.ok r) := by
  have s34 : skipSpace (34 :: body) = 34 :: body := by simp [skipSpace, isSpace]
  have s123 : skipSpace (123 :: 34 :: body) = 123 :: 34 :: body := by simp [skipSpace, isSpace]
  simp only [decodeValue, s123, s34, h]

theorem writeMembers_head (lead : Nat) (m : GoString × GoString)
    (rest : List (GoString × GoString)) :
    ∃ body, writeMembers lead (m :: rest) = lead :: 34 :: body := by
  obtain ⟨k, v⟩ := m
  exact ⟨k ++ 34 :: 58 :: (appendString v ++ writeMembers 44 rest), by simp [writeMembers]⟩

theorem goUnmarshal_members (ms : List (List Char × GoString)) (h : ms ≠ []) :
    goUnmarshal (writeMembers 123 (ms.map fun m => (escText m.1, m.2)))
      = .ok (ms.foldl (fun r m => storeMember r (utf8Chars m.1) (utf8Chars (runesLoop m.2.length m.2))) zeroData) := by
  have hvalid := checkValid_members ms h
  have hlen := writeMembers_length 123 (ms.map fun m => (escText m.1, m.2))
  have hdec := decodeMembers_members ms
    ((writeMembers 123 (ms.map fun m => (escText m.1, m.2))).tail.length) 123
    zeroData none h (by simp only [List.length_tail, List.length_map] at hlen ⊢; omega)
  cases ms with
  | nil => exact absurd rfl h
  | cons m rest =>
    obtain ⟨body, hbody⟩ := writeMembers_head 123 (escText m.1, m.2)
      (rest.map fun m => (escText m.1, m.2))
    simp only [List.map_cons] at hvalid hdec ⊢
    rw [hbody] at hvalid hdec ⊢
    simp only [List.tail_cons] at hdec
    simp only [goUnmarshal, hvalid, decodeValue_object body _ hdec]

theorem findField_tags :
    findField (utf8 "PassportNumber") = some "PassportNumber" ∧
      findField (utf8 "Name") = some "Name" ∧
      findField (utf8 "LastName") = some "LastName" ∧
      findField (utf8 "City") = some "City" ∧
      findField (utf8 "ResidentialAddress") = some "ResidentialAddress" ∧
      findField (utf8 "PhoneNumber") = some "PhoneNumber" ∧
      findField (utf8 "FamilyStatus") = some "FamilyStatus" := by
  refine ⟨rfl, rfl, rfl, rfl, rfl, rfl, rfl⟩

theorem goUnmarshal_goMarshal_raw (r : PersonDataRaw) :
    goUnmarshal (goMarshal r) = .ok r.toText.toRaw := by
  have h := goUnmarshal_members
    [("PassportNumber".data, r.PassportNumber), ("Name".data, r.Name),
      ("LastName".data, r.LastName), ("City".data, r.City),
      ("ResidentialAddress".data, r.ResidentialAddress),
      ("PhoneNumber".data, r.PhoneNumber), ("FamilyStatus".data, r.FamilyStatus)]
    (by simp)
  obtain ⟨f1, f2, f3, f4, f5, f6, f7⟩ := findField_tags
  simp only [utf8] at f1 f2 f3 f4 f5 f6 f7
  simp only [List.foldl, storeMember, f1, f2, f3, f4, f5, f6, f7] at h
  exact h

theorem goUnmarshal_goMarshal (r : PersonData) :
    goUnmarshal (goMarshal r.toRaw) = .ok r.toRaw := by
  rw [goUnmarshal_goMarshal_raw, toText_toRaw]

/-! ## The codec of `encoding/json` on texts -/

theorem isText_append {x y : List Nat} (hx : ∃ a, x = utf8Chars a) (hy : ∃ b, y = utf8Chars b) :
    ∃ c, x ++ y = utf8Chars c := by
  obtain ⟨a, rfl⟩ := hx
  obtain ⟨b, rfl⟩ := hy
  exact ⟨a ++ b, (utf8Chars_append a b).symm⟩

theorem isText_cons {b : Nat} {y : List Nat} (hb : b < 128) (hy : ∃ c, y = utf8Chars c) :
    ∃ c, b :: y = utf8Chars c := by
  obtain ⟨c, rfl⟩ := hy
  refine ⟨Char.ofNat b :: c, ?_⟩
  simp [utf8Chars, toNat_ofNat_scalar (Or.inl (by omega) : IsScalar b), encodeRune, hb]

theorem ascii_isText : ∀ l : List Nat, (∀ b ∈ l, b < 128) → ∃ cs, l = utf8Chars cs
  | [], _ => ⟨[], rfl⟩
  | b :: l, h =>
    isText_cons (h b (List.mem_cons_self _ _))
      (ascii_isText l (fun x hx => h x (List.mem_cons_of_mem _ hx)))

theorem hexDigit_lt {n : Nat} (h : n < 16) : hexDigit n < 128 := by
  unfold hexDigit
  split_ifs <;> omega

theorem escRune_isText (ch : Char) : ∃ cs, escRune ch.toNat = utf8Chars cs := by
  unfold escRune
  by_cases h80 : ch.toNat < 0x80
  · simp only [h80, if_true]
    apply ascii_isText
    have h1 := @hexDigit_lt (ch.toNat / 16) (by omega)
    have h2 := @hexDigit_lt (ch.toNat % 16) (by omega)
    unfold escapeByte
    split_ifs <;> simp <;> omega
  · simp only [h80, if_false]
    split_ifs
    · apply ascii_isText
      have h2 := @hexDigit_lt (ch.toNat % 16) (by omega)
      simp
      omega
    · exact ⟨[ch], by simp [utf8Chars]⟩

theorem escText_isText : ∀ cs : List Char, ∃ cs', escText cs = utf8Chars cs'
  | [] => ⟨[], rfl⟩
  | ch :: cs => isText_append (escRune_isText ch) (escText_isText cs)

theorem writeMembers_isText :
    ∀ (ms : List (List Char × List Char)) (lead : Nat), lead < 128 →
      ∃ cs, writeMembers lead (ms.map fun m => (utf8Chars m.1, utf8Chars m.2)) = utf8Chars cs
  | [], _, _ => ⟨[Char.ofNat 125], rfl⟩
  | (k, v) :: rest, lead, hl => by
    have ha := writeMembers_isText rest 44 (by omega)
    have hb := escText_isText v
    simp only [List.map, writeMembers, appendString_text, List.append_assoc, List.cons_append,
      List.nil_append]
    refine isText_cons hl (isText_cons (by omega) (isText_append ⟨k, rfl⟩ ?_))
    refine isText_cons (by omega) (isText_cons (by omega) (isText_cons (by omega) ?_))
    exact isText_append hb (isText_cons (by omega) ha)

theorem utf8_textOf_goMarshal (r : PersonData) :
    utf8 (textOf (goMarshal r.toRaw)) = goMarshal r.toRaw := by
  obtain ⟨cs, hcs⟩ := writeMembers_isText
    [("PassportNumber".data, r.PassportNumber.data), ("Name".data, r.Name.data),
      ("LastName".data, r.LastName.data), ("City".data, r.City.data),
      ("ResidentialAddress".data, r.ResidentialAddress.data),
      ("PhoneNumber".data, r.PhoneNumber.data), ("FamilyStatus".data, r.FamilyStatus.data)]
    123 (by omega)
  have hm : goMarshal r.toRaw = utf8Chars cs := hcs
  rw [hm]
  have h := textOf_utf8 (String.mk cs)
  simp only [utf8] at h
  simp only [utf8, h]

theorem goCodec_faithful : goCodec.Faithful := by
  intro r b h
  simp only [goCodec, Except.ok.injEq] at h
  subst h
  simp only [goCodec, utf8_textOf_goMarshal, goUnmarshal_goMarshal, toText_toRaw]


/-! ## The round trip of the serialization -/

theorem goUnmarshal_member (key : String) (v : String) :
    goUnmarshal (writeMembers 123 [(escText key.data, utf8 v)])
      = .ok (storeMember zeroData (utf8 key) (utf8 v)) := by
  have h := goUnmarshal_members [(key.data, utf8 v)] (by simp)
  have hv : utf8Chars (runesLoop (utf8 v).length (utf8 v)) = utf8 v := by
    rw [utf8, runesLoop_text v.data _ (Nat.le_refl _)]
  simp only [List.map, List.foldl, hv] at h
  exact h

set_option maxRecDepth 100000 in
/-- C13 (counterexample): for the first record of `datas` with the one-byte
`Name` 0xFF, `json.Marshal` writes the escape of U+FFFD for the name;
`json.Unmarshal` of that text gives the three bytes of U+FFFD as `Name`, not
the byte 0xFF; the record with the `Name` 0xFE is written as the same text, so
that no reader gives back both. -/
theorem round_trip_fails_on_invalid_utf8 :
    goMarshal invalidNameData
        = utf8 ("\x7b\"PassportNumber\":\"1\",\"Name\":\"\\ufffd\",\"LastName\":\"Zinatulin\","
          ++ "\"City\":\"Moscow\",\"ResidentialAddress\":\"Some street, house 1, apartment 10\","
          ++ "\"PhoneNumber\":\"+79999999999\",\"FamilyStatus\":\"Not married\"\x7d") ∧
      goUnmarshal (goMarshal invalidNameData)
        = .ok { invalidNameData with Name := [0xEF, 0xBF, 0xBD] } ∧
      goUnmarshal (goMarshal invalidNameData) ≠ .ok invalidNameData ∧
      goMarshal invalidNameData = goMarshal otherInvalidNameData ∧
      invalidNameData ≠ otherInvalidNameData := by
  have h : goUnmarshal (goMarshal invalidNameData)
      = .ok { invalidNameData with Name := [0xEF, 0xBF, 0xBD] } := rfl
  refine ⟨rfl, h, ?_, rfl, by decide⟩
  rw [h]
  intro heq
  exact absurd (Except.ok.inj heq) (by decide)

/-- C13 (amended): for every record whose seven fields are valid UTF-8 text,
`json.Unmarshal` of the bytes that `json.Marshal` writes for it gives back the
same record, all seven fields, and so does the codec on texts.  The bytes
written are the members under the keys `PassportNumber`, `Name`, `LastName`,
`City`, `ResidentialAddress`, `PhoneNumber`, `FamilyStatus`, and
`json.Unmarshal` stores the value of the member under each of these keys in
the field of that name and in no other.  For no other record is the round trip
exact: whatever the bytes of the fields, the record that comes back is the one
of the runes of the fields, with U+FFFD for every byte that starts no valid
encoding. -/
theorem round_trip_on_text (r : PersonData) :
    goUnmarshal (goMarshal r.toRaw) = .ok r.toRaw ∧
      goCodec.RoundTrips r ∧
      goMarshal r.toRaw
        = writeMembers 123
            [(utf8 "PassportNumber", utf8 r.PassportNumber), (utf8 "Name", utf8 r.Name),
              (utf8 "LastName", utf8 r.LastName), (utf8 "City", utf8 r.City),
              (utf8 "ResidentialAddress", utf8 r.ResidentialAddress),
              (utf8 "PhoneNumber", utf8 r.PhoneNumber),
              (utf8 "FamilyStatus", utf8 r.FamilyStatus)] ∧
      (∀ v : String,
        goUnmarshal (writeMembers 123 [(utf8 "PassportNumber", utf8 v)])
            = .ok { zeroData with PassportNumber := utf8 v } ∧
          goUnmarshal (writeMembers 123 [(utf8 "Name", utf8 v)])
            = .ok { zeroData with Name := utf8 v } ∧
          goUnmarshal (writeMembers 123 [(utf8 "LastName", utf8 v)])
            = .ok { zeroData with LastName := utf8 v } ∧
          goUnmarshal (writeMembers 123 [(utf8 "City", utf8 v)])
            = .ok { zeroData with City := utf8 v } ∧
          goUnmarshal (writeMembers 123 [(utf8 "ResidentialAddress", utf8 v)])
            = .ok { zeroData with ResidentialAddress := utf8 v } ∧
          goUnmarshal (writeMembers 123 [(utf8 "PhoneNumber", utf8 v)])
            = .ok { zeroData with PhoneNumber := utf8 v } ∧
          goUnmarshal (writeMembers 123 [(utf8 "FamilyStatus", utf8 v)])
            = .ok { zeroData with FamilyStatus := utf8 v }) ∧
      ∀ raw : PersonDataRaw,
        goUnmarshal (goMarshal raw) = .ok raw.toText.toRaw ∧
          (goUnmarshal (goMarshal raw) = .ok raw ↔ ∃ p : PersonData, raw = p.toRaw) := by
  refine ⟨goUnmarshal_goMarshal r, ⟨_, rfl, goCodec_faithful r _ rfl⟩, rfl, fun v => ?_,
    fun raw => ⟨goUnmarshal_goMarshal_raw raw, ?_, ?_⟩⟩
  · exact ⟨goUnmarshal_member "PassportNumber" v, goUnmarshal_member "Name" v,
      goUnmarshal_member "LastName" v, goUnmarshal_member "City" v,
      goUnmarshal_member "ResidentialAddress" v, goUnmarshal_member "PhoneNumber" v,
      goUnmarshal_member "FamilyStatus" v⟩
  · intro h
    rw [goUnmarshal_goMarshal_raw] at h
    exact ⟨raw.toText, (Except.ok.inj h).symm⟩
  · rintro ⟨p, rfl⟩
    exact goUnmarshal_goMarshal p

end PopulationData
